import Mathlib

/-!
Verification development for the visual-invoice-processor ingestion pipeline.

The Python sources are shallowly embedded as executable Lean definitions:

* `src/app/idempotency_store.py` — the per-document claim store
  (`claim_document`, `mark_status`), modelled per key as explicit state
  passing over an optional row.  Each `claim_document` call runs inside a
  `BEGIN IMMEDIATE` SQLite transaction, so concurrent callers serialize:
  concurrency is modelled as an arbitrary interleaving (sequence) of atomic
  claim operations.
* `src/app/state_machine.py` — the allowed transition table.
* `src/app/main.py` (`run_poll_once`) — the per-document status writes, as a
  reachability relation over the sequences of statuses written for one key.
* `src/app/validation.py` — business rules and scoring over canonical
  records; Python floats are modelled as exact rationals and Python's
  `round` as round-half-to-even.
* `src/app/extraction_service.py` (`extract_document`) — first attempt /
  corrective-retry control flow over an abstract vision client, with a
  faithful JSON parser for `_parse_json_payload`.
* `src/app/normalization_engine.py` — the rule-driven coercion engine over a
  deep embedding of JSON values.
-/

namespace VIP

/-! ## Claim store (src/app/idempotency_store.py) -/

/-- Result status of `DocumentClaimStore.claim_document`. -/
inductive ClaimOutcome where
  | claimed
  | alreadyClaimed
  | alreadyProcessed
deriving DecidableEq, Repr

/-- One row of the `document_claims` table for a fixed
`(drive_file_id, file_hash)` key.  Timestamps are abstract ticks. -/
structure ClaimRow where
  status : String
  owner_id : String
  claimed_at : Nat
  updated_at : Nat
deriving DecidableEq, Repr

/-- `DocumentClaimStore.claim_document` for one key.  `none` means no row
exists (insert-if-absent succeeds); otherwise the existing row's status
decides the outcome exactly as in the source: `FAILED`/`REVIEW_REQUIRED`
reset to `CLAIMED` with the new owner and a fresh `updated_at`;
`STORED`/`ARCHIVED` answer `already_processed`; anything else answers
`already_claimed`. -/
def claim_document (row : Option ClaimRow) (owner : String) (now : Nat) :
    ClaimOutcome × Option ClaimRow :=
  match row with
  | none => (.claimed, some ⟨"CLAIMED", owner, now, now⟩)
  | some r =>
      if r.status = "FAILED" ∨ r.status = "REVIEW_REQUIRED" then
        (.claimed, some { r with status := "CLAIMED", owner_id := owner, updated_at := now })
      else if r.status = "STORED" ∨ r.status = "ARCHIVED" then
        (.alreadyProcessed, some r)
      else
        (.alreadyClaimed, some r)

/-- `DocumentClaimStore.mark_status` for one key: unconditional update of an
existing row (a no-op when no row exists, as in SQL `UPDATE`). -/
def mark_status (row : Option ClaimRow) (st : String) (now : Nat) : Option ClaimRow :=
  row.map (fun r => { r with status := st, updated_at := now })

/-- Serialized execution of a batch of `claim_document` calls for the same
key: each call is one atomic `BEGIN IMMEDIATE` transaction, so any
concurrent schedule is some sequential order of the calls. -/
def runClaims (row : Option ClaimRow) : List (String × Nat) → List ClaimOutcome × Option ClaimRow
  | [] => ([], row)
  | (o, t) :: rest =>
      let step := claim_document row o t
      let tail := runClaims step.2 rest
      (step.1 :: tail.1, tail.2)

theorem claim_document_claimed_status (row : Option ClaimRow) (o : String) (t : Nat) :
    (claim_document row o t).1 = .claimed →
    ∃ r, (claim_document row o t).2 = some r ∧ r.status = "CLAIMED" := by
  match row with
  | none => exact fun _ => ⟨⟨"CLAIMED", o, t, t⟩, rfl, rfl⟩
  | some r =>
      by_cases h1 : r.status = "FAILED" ∨ r.status = "REVIEW_REQUIRED"
      · intro _
        refine ⟨{ r with status := "CLAIMED", owner_id := o, updated_at := t }, ?_, rfl⟩
        simp [claim_document, h1]
      · by_cases h2 : r.status = "STORED" ∨ r.status = "ARCHIVED" <;>
          · intro hc
            simp [claim_document, h1, h2] at hc

theorem runClaims_claimedRow (calls : List (String × Nat)) :
    ∀ r : ClaimRow, r.status = "CLAIMED" →
      (runClaims (some r) calls).1.count .claimed = 0 ∧
      (runClaims (some r) calls).2 = some r := by
  induction calls with
  | nil => intro r _; exact ⟨rfl, rfl⟩
  | cons c rest ih =>
      intro r hr
      have hcase : claim_document (some r) c.1 c.2 = (.alreadyClaimed, some r) := by
        simp [claim_document, hr]
      have := ih r hr
      simp [runClaims, hcase, List.count_cons, this.1, this.2]

/-! ## State machine (src/app/state_machine.py) -/

/-- `ALLOWED_TRANSITIONS` from `src/app/state_machine.py`. -/
def ALLOWED_TRANSITIONS : List (String × List String) :=
  [("NEW", ["CLAIMED", "FAILED"]),
   ("CLAIMED", ["EXTRACTED", "FAILED"]),
   ("EXTRACTED", ["VALIDATED", "REVIEW_REQUIRED", "FAILED"]),
   ("VALIDATED", ["STORED", "REVIEW_REQUIRED", "FAILED"]),
   ("REVIEW_REQUIRED", ["CLAIMED", "FAILED"]),
   ("STORED", ["ARCHIVED", "FAILED"]),
   ("ARCHIVED", []),
   ("FAILED", [])]

/-- `to_state ∈ ALLOWED_TRANSITIONS[from_state]` on already-normalized
(upper-case, trimmed) state names. -/
def allowedEdge (f t : String) : Bool :=
  ((ALLOWED_TRANSITIONS.lookup f).getD []).contains t

/-! ## Pipeline status writes (src/app/main.py, run_poll_once)

For one `(source_id, content_hash)` key, each iteration of `run_poll_once`
that wins the claim writes `CLAIMED` (via `claim_document`) and then one of
the following mark sequences, read off the source's control flow:

* schema validation error → `mark_status(REVIEW_REQUIRED)`;
* routing decision `REVIEW_REQUIRED` → `mark_status(REVIEW_REQUIRED)`;
* success → `mark_status(STORED)` then `mark_status(ARCHIVED)`;
* success of the store step but an exception while archiving →
  `mark_status(STORED)` then `mark_status(FAILED)`;
* extraction / pipeline error → `mark_status(FAILED)`;
* extraction / pipeline error with the local file already gone → no
  further mark (the `FAILED` mark is guarded by `local_path.exists()`).

An iteration that does not win the claim writes nothing. -/

inductive PipeOutcome where
  | schemaReview
  | decisionReview
  | storedArchived
  | storedFailed
  | failed
  | claimedOnly
deriving DecidableEq

/-- Statuses written by `mark_status` after a winning `claim_document`,
for each control-flow outcome of one `run_poll_once` iteration. -/
def iterationMarks : PipeOutcome → List String
  | .schemaReview => ["REVIEW_REQUIRED"]
  | .decisionReview => ["REVIEW_REQUIRED"]
  | .storedArchived => ["STORED", "ARCHIVED"]
  | .storedFailed => ["STORED", "FAILED"]
  | .failed => ["FAILED"]
  | .claimedOnly => []

/-- Last element of a list, with a default for the empty list. -/
def lastD (l : List String) (d : String) : String :=
  match l with
  | [] => d
  | a :: t => lastD t a

/-- The last status written for the key, `"NEW"` when none was written
(no row exists yet). -/
def lastStatus (tr : List String) : String := lastD tr "NEW"

/-- `claim_document` wins exactly when no row exists or the row's status is
`FAILED` or `REVIEW_REQUIRED`. -/
def claimWins (s : String) : Bool :=
  s = "NEW" || s = "FAILED" || s = "REVIEW_REQUIRED"

/-- Sequences of statuses written for one key by repeatedly running
`run_poll_once` iterations. -/
inductive PipeTrace : List String → Prop where
  | nil : PipeTrace []
  | step (tr : List String) (o : PipeOutcome) (h : PipeTrace tr)
      (hw : claimWins (lastStatus tr) = true) :
      PipeTrace (tr ++ "CLAIMED" :: iterationMarks o)

/-- Consecutive status transitions observed from a given previous status. -/
def transitionsFrom (prev : String) : List String → List (String × String)
  | [] => []
  | s :: rest => (prev, s) :: transitionsFrom s rest

/-- All observed transitions of a trace, starting from the implicit `NEW`. -/
def observed (tr : List String) : List (String × String) :=
  transitionsFrom "NEW" tr

theorem transitionsFrom_append (l m : List String) (p : String) :
    transitionsFrom p (l ++ m) =
      transitionsFrom p l ++ transitionsFrom (lastD l p) m := by
  induction l generalizing p with
  | nil => simp [transitionsFrom, lastD]
  | cons a l ih =>
      simp [transitionsFrom, ih a, lastD]

/-- The extra transition pairs the pipeline actually produces beyond the
state-machine table. -/
def extraEdges : List (String × String) :=
  [("CLAIMED", "STORED"), ("CLAIMED", "REVIEW_REQUIRED"), ("FAILED", "CLAIMED")]

theorem runClaims_processedRow (calls : List (String × Nat)) :
    ∀ r : ClaimRow, (r.status = "STORED" ∨ r.status = "ARCHIVED") →
      (∀ res ∈ (runClaims (some r) calls).1, res = .alreadyProcessed) ∧
      (runClaims (some r) calls).2 = some r := by
  induction calls with
  | nil => intro r _; exact ⟨by simp [runClaims], rfl⟩
  | cons c rest ih =>
      intro r hr
      have hcase : claim_document (some r) c.1 c.2 = (.alreadyProcessed, some r) := by
        rcases hr with h | h <;> simp [claim_document, h]
      have h := ih r hr
      refine ⟨?_, ?_⟩
      · intro res hres
        simp only [runClaims, hcase, List.mem_cons] at hres
        rcases hres with h1 | h1
        · exact h1
        · exact h.1 res h1
      · simp [runClaims, hcase, h.2]

/-- C1.  Among any number of `claim_document` calls for the same key
executed on a fresh store (each call one atomic `BEGIN IMMEDIATE`
transaction, so a concurrent schedule is a sequential order of the calls),
at most one call returns `claimed`; six callers on a fresh store get
exactly one `claimed` and five `already_claimed` results. -/
theorem claim_contention_at_most_one_claimed :
    (∀ calls : List (String × Nat), ((runClaims none calls).1.count .claimed) ≤ 1)
    ∧ (runClaims none
        [("w0", 0), ("w1", 1), ("w2", 2), ("w3", 3), ("w4", 4), ("w5", 5)]).1 =
        [.claimed, .alreadyClaimed, .alreadyClaimed, .alreadyClaimed, .alreadyClaimed,
         .alreadyClaimed] := by
  constructor
  · intro calls
    cases calls with
    | nil => simp [runClaims]
    | cons c rest =>
        have h0 : claim_document none c.1 c.2 = (.claimed, some ⟨"CLAIMED", c.1, c.2, c.2⟩) := rfl
        have h := runClaims_claimedRow rest ⟨"CLAIMED", c.1, c.2, c.2⟩ rfl
        simp [runClaims, h0, List.count_cons, h.1]
  · rfl

/-- C2.  `claim_document` on a key whose row exists: `FAILED` and
`REVIEW_REQUIRED` rows are reset to `CLAIMED` with the new owner and a
fresh `updated_at` and the call returns `claimed`; `STORED` and `ARCHIVED`
rows return `already_processed` — and after `mark_status(STORED)` or
`mark_status(ARCHIVED)` every subsequent `claim_document` returns
`already_processed` — and every other status returns `already_claimed`. -/
theorem claim_document_existing_row_cases (r : ClaimRow) (o : String) (t : Nat) :
    ((r.status = "FAILED" ∨ r.status = "REVIEW_REQUIRED") →
       claim_document (some r) o t =
         (.claimed, some { r with status := "CLAIMED", owner_id := o, updated_at := t }))
    ∧ ((r.status = "STORED" ∨ r.status = "ARCHIVED") →
       claim_document (some r) o t = (.alreadyProcessed, some r))
    ∧ (r.status ≠ "FAILED" → r.status ≠ "REVIEW_REQUIRED" → r.status ≠ "STORED" →
       r.status ≠ "ARCHIVED" →
       claim_document (some r) o t = (.alreadyClaimed, some r))
    ∧ (∀ st : String, (st = "STORED" ∨ st = "ARCHIVED") →
       ∀ calls : List (String × Nat),
         ∀ res ∈ (runClaims (mark_status (some r) st t) calls).1, res = .alreadyProcessed) := by
  refine ⟨?_, ?_, ?_, ?_⟩
  · intro h
    rcases h with h | h <;> simp [claim_document, h]
  · intro h
    rcases h with h | h <;> simp [claim_document, h]
  · intro h1 h2 h3 h4
    simp [claim_document, h1, h2, h3, h4]
  · intro st hst calls res hres
    have hrow : mark_status (some r) st t = some { r with status := st, updated_at := t } := rfl
    rw [hrow] at hres
    exact (runClaims_processedRow calls _ (by rcases hst with h | h <;> simp [h])).1 res hres

/-- Witness for C2 at concrete rows: a `FAILED` row is re-claimed, a
`STORED` row answers `already_processed`, a `CLAIMED` row answers
`already_claimed`, and after `mark_status(STORED)` a later claim answers
`already_processed`. -/
theorem claim_document_existing_row_cases_witness :
    (claim_document (some ⟨"FAILED", "a", 0, 0⟩) "b" 5 =
       (.claimed, some ⟨"CLAIMED", "b", 0, 5⟩))
    ∧ (claim_document (some ⟨"STORED", "a", 0, 0⟩) "b" 5 =
       (.alreadyProcessed, some ⟨"STORED", "a", 0, 0⟩))
    ∧ (claim_document (some ⟨"CLAIMED", "a", 0, 0⟩) "b" 5 =
       (.alreadyClaimed, some ⟨"CLAIMED", "a", 0, 0⟩))
    ∧ ∀ res ∈ (runClaims (mark_status (some ⟨"CLAIMED", "a", 0, 0⟩) "STORED" 3)
        [("c", 7)]).1, res = .alreadyProcessed :=
  ⟨(claim_document_existing_row_cases ⟨"FAILED", "a", 0, 0⟩ "b" 5).1 (Or.inl rfl),
   (claim_document_existing_row_cases ⟨"STORED", "a", 0, 0⟩ "b" 5).2.1 (Or.inl rfl),
   (claim_document_existing_row_cases ⟨"CLAIMED", "a", 0, 0⟩ "b" 5).2.2.1
     (by decide) (by decide) (by decide) (by decide),
   (claim_document_existing_row_cases ⟨"CLAIMED", "a", 0, 0⟩ "x" 3).2.2.2
     "STORED" (Or.inl rfl) [("c", 7)]⟩

theorem blockTransitions_ok (l : String) (o : PipeOutcome)
    (hl : l = "NEW" ∨ l = "FAILED" ∨ l = "REVIEW_REQUIRED") :
    ∀ p ∈ transitionsFrom l ("CLAIMED" :: iterationMarks o),
      allowedEdge p.1 p.2 = true ∨ p ∈ extraEdges := by
  rcases hl with rfl | rfl | rfl <;> cases o <;> decide

/-- C3 (amended).  `run_poll_once` never writes the intermediate
`EXTRACTED`/`VALIDATED` statuses and re-claims `FAILED` keys, so the
observed transitions are the §3 table edges together with
`CLAIMED→STORED`, `CLAIMED→REVIEW_REQUIRED` and `FAILED→CLAIMED`. -/
theorem pipeline_observed_transitions (tr : List String) (h : PipeTrace tr) :
    ∀ p ∈ observed tr, allowedEdge p.1 p.2 = true ∨ p ∈ extraEdges := by
  induction h with
  | nil => intro p hp; simp [observed, transitionsFrom] at hp
  | step tr o h hw ih =>
      intro p hp
      rw [observed, transitionsFrom_append] at hp
      rcases List.mem_append.1 hp with hp | hp
      · exact ih p hp
      · have hcases : lastStatus tr = "NEW" ∨ lastStatus tr = "FAILED" ∨
            lastStatus tr = "REVIEW_REQUIRED" := by
          have := hw
          simp only [claimWins, Bool.or_eq_true, decide_eq_true_eq] at this
          tauto
        exact blockTransitions_ok (lastD tr "NEW") o hcases p hp

/-- Witness for C3 (amended): on the trace of one successfully stored and
archived document, the observed transition `STORED→ARCHIVED` is accounted
for. -/
theorem pipeline_observed_transitions_witness :
    allowedEdge "STORED" "ARCHIVED" = true ∨
      ("STORED", "ARCHIVED") ∈ extraEdges :=
  pipeline_observed_transitions ["CLAIMED", "STORED", "ARCHIVED"]
    (PipeTrace.step [] .storedArchived PipeTrace.nil (by decide))
    ("STORED", "ARCHIVED") (by decide)

/-- C3 counterexample.  The trace written by one successful iteration of
`run_poll_once` — `CLAIMED`, `STORED`, `ARCHIVED` — contains the observed
transition `CLAIMED→STORED`, which is not an edge of the
`ALLOWED_TRANSITIONS` table (the table only allows
`CLAIMED→{EXTRACTED, FAILED}`). -/
theorem pipeline_trace_leaves_table :
    PipeTrace ["CLAIMED", "STORED", "ARCHIVED"]
    ∧ ("CLAIMED", "STORED") ∈ observed ["CLAIMED", "STORED", "ARCHIVED"]
    ∧ allowedEdge "CLAIMED" "STORED" = false := by
  refine ⟨?_, by decide, by decide⟩
  exact PipeTrace.step [] .storedArchived PipeTrace.nil (by decide)

/-! ## Computational rational arithmetic

Batteries marks `Rat.add`, `Rat.mul` and `Rat.inv` `@[irreducible]`, which
blocks kernel evaluation (`decide`/`rfl`) of anything built on the field
operations.  The embeddings below therefore use `mkRat`-based wrappers,
each proved equal to the corresponding field operation. -/

def qmul (a b : ℚ) : ℚ := mkRat (a.num * b.num) (a.den * b.den)

def qsub (a b : ℚ) : ℚ := mkRat (a.num * b.den - b.num * a.den) (a.den * b.den)

def qneg (a : ℚ) : ℚ := mkRat (-a.num) a.den

def qfloor (q : ℚ) : ℤ := q.num / q.den

theorem qmul_eq (a b : ℚ) : qmul a b = a * b := by
  rw [qmul, Rat.mkRat_eq_div]
  conv_rhs => rw [← Rat.num_div_den a, ← Rat.num_div_den b]
  rw [div_mul_div_comm]
  push_cast
  ring_nf

theorem qsub_eq (a b : ℚ) : qsub a b = a - b := by
  rw [qsub, Rat.mkRat_eq_div]
  have ha : ((a.den : ℚ)) ≠ 0 := by exact_mod_cast a.den_nz
  have hb : ((b.den : ℚ)) ≠ 0 := by exact_mod_cast b.den_nz
  conv_rhs => rw [← Rat.num_div_den a, ← Rat.num_div_den b]
  rw [div_sub_div _ _ ha hb]
  push_cast
  ring_nf

theorem qneg_eq (a : ℚ) : qneg a = -a := by
  rw [qneg, Rat.mkRat_eq_div]
  conv_rhs => rw [← Rat.num_div_den a]
  push_cast
  rw [neg_div]

theorem qfloor_eq (q : ℚ) : qfloor q = ⌊q⌋ := Rat.floor_def.symm

/-! ## Python string helpers shared by the embeddings -/

/-- ASCII whitespace as recognized by Python's `str.strip` / `\s`
(the unicode-only cases are out of scope of this embedding). -/
def pyIsSpace (c : Char) : Bool :=
  c = ' ' || c = '\t' || c = '\n' || c = '\r' || c = '\x0b' || c = '\x0c'

/-- Python `str.strip()`. -/
def pyStrip (s : String) : String :=
  String.mk (((s.data.dropWhile pyIsSpace).reverse.dropWhile pyIsSpace).reverse)

/-! ## Validator (src/app/validation.py over schemas/invoice_schema.py)

`validate_and_score` first runs pydantic validation producing a typed
`InvoiceRecord`; the embedding starts from the typed record (the claim
quantifies over schema-valid canonical records) and models Python floats
as exact rationals and Python `round` as round-half-to-even. -/

/-- `schemas.invoice_schema.LineItem` (typed, post-validation). -/
structure LineItem where
  description : String
  quantity : ℚ
  unit_price : ℚ
  line_total : ℚ
  category : Option String
deriving DecidableEq

/-- `schemas.invoice_schema.InvoiceRecord` (typed, post-validation). -/
structure InvoiceRecord where
  document_type : String
  vendor_name : String
  vendor_tax_id : Option String
  invoice_number : Option String
  invoice_date : String
  due_date : Option String
  currency : String
  subtotal : ℚ
  tax_amount : ℚ
  total_amount : ℚ
  payment_method : String
  line_items : List LineItem
  model_confidence : ℚ
  validation_score : ℚ
deriving DecidableEq

/-- Python `round(x)` to an integer: round-half-to-even. -/
def pyRound (q : ℚ) : ℤ :=
  let f : ℤ := qfloor q
  let frac : ℚ := qsub q (mkRat f 1)
  if frac < mkRat 1 2 then f
  else if mkRat 1 2 < frac then f + 1
  else if f % 2 = 0 then f else f + 1

/-- Python `round(x, n)`. -/
def pyRoundTo (n : ℕ) (q : ℚ) : ℚ := mkRat (pyRound (qmul q (mkRat (10 ^ n) 1))) (10 ^ n)

/-- One business-rule violation dictionary (the keys used by
`evaluate_business_rules`). -/
structure Violation where
  code : String
  severity : String
  message : String
  expected_total : Option ℚ := none
  actual_total : Option ℚ := none
  expected_subtotal : Option ℚ := none
  actual_subtotal : Option ℚ := none
deriving DecidableEq

/-- Python truthiness test `value and value.strip()` on an optional
string. -/
def optNonBlank : Option String → Bool
  | none => false
  | some s => pyStrip s ≠ ""

/-- The violation dictionary built by the `amount_mismatch` branch. -/
def amountMismatchViolation (computed_total declared_total : ℚ) : Violation :=
  { code := "amount_mismatch", severity := "error",
    message := "subtotal + tax does not match total_amount",
    expected_total := some computed_total, actual_total := some declared_total }

/-- The `amount_mismatch` block of `evaluate_business_rules`. -/
def amountViolations (record : InvoiceRecord) (amount_tolerance : ℚ) : List Violation :=
  let computed_total := pyRoundTo 2 (record.subtotal + record.tax_amount)
  let declared_total := pyRoundTo 2 record.total_amount
  if amount_tolerance < |computed_total - declared_total| then
    [amountMismatchViolation computed_total declared_total]
  else []

/-- The line-item block of `evaluate_business_rules`. -/
def lineViolations (record : InvoiceRecord) (amount_tolerance : ℚ) : List Violation :=
  if record.line_items ≠ [] then
    let line_sum := pyRoundTo 2 ((record.line_items.map LineItem.line_total).sum)
    let subtotal := pyRoundTo 2 record.subtotal
    if line_sum ≤ amount_tolerance ∧ amount_tolerance < subtotal then
      [{ code := "line_items_incomplete", severity := "warning",
         message := "line items present but amounts are missing or zero",
         expected_subtotal := some line_sum, actual_subtotal := some subtotal }]
    else if amount_tolerance < |line_sum - subtotal| then
      [{ code := "line_item_sum_mismatch", severity := "error",
         message := "sum(line_items.line_total) does not match subtotal",
         expected_subtotal := some line_sum, actual_subtotal := some subtotal }]
    else []
  else []

/-- The `missing_identifier` block of `evaluate_business_rules`. -/
def idViolations (record : InvoiceRecord) : List Violation :=
  if record.document_type = "invoice" ∧
      ¬(optNonBlank record.invoice_number = true ∨ optNonBlank record.vendor_tax_id = true) then
    [{ code := "missing_identifier", severity := "warning",
       message := "invoice should include invoice_number or vendor_tax_id" }]
  else []

/-- `evaluate_business_rules` (src/app/validation.py). -/
def evaluate_business_rules (record : InvoiceRecord) (amount_tolerance : ℚ) : List Violation :=
  amountViolations record amount_tolerance ++ lineViolations record amount_tolerance ++
    idViolations record

/-- Result of `validate_and_score`. -/
structure ValidationResult where
  record : InvoiceRecord
  violations : List Violation
  validation_score : ℚ
  is_valid : Bool
deriving DecidableEq

/-- `validate_and_score` (src/app/validation.py), after the pydantic step. -/
def validate_and_score (record : InvoiceRecord) (amount_tolerance : ℚ) : ValidationResult :=
  let violations := evaluate_business_rules record amount_tolerance
  let score : ℚ := max 0 (1 - (violations.length : ℚ) / 3)
  { record := record, violations := violations,
    validation_score := pyRoundTo 4 score,
    is_valid := !(violations.any (fun v => v.severity == "error")) }

theorem lineViolations_code (record : InvoiceRecord) (tol : ℚ) :
    ∀ v ∈ lineViolations record tol, v.code ≠ "amount_mismatch" := by
  intro v hv
  simp only [lineViolations] at hv
  split at hv
  · split at hv
    · simp at hv; subst hv; simp
    · split at hv
      · simp at hv; subst hv; simp
      · simp at hv
  · simp at hv

theorem idViolations_code (record : InvoiceRecord) :
    ∀ v ∈ idViolations record, v.code ≠ "amount_mismatch" := by
  intro v hv
  simp only [idViolations] at hv
  split at hv
  · simp at hv; subst hv; simp
  · simp at hv

/-- C4.  `validate_and_score` reports an error-severity `amount_mismatch`
violation exactly when `|round(subtotal + tax_amount, 2) −
round(total_amount, 2)| > amount_tolerance`; its `validation_score` is
`max(0, 1 − violations_count / 3)` rounded to 4 decimal places; and
`is_valid` holds iff the returned violation list has no error-severity
entry. -/
theorem validate_and_score_props (record : InvoiceRecord) (tol : ℚ) :
    ((∃ v ∈ (validate_and_score record tol).violations,
        v.code = "amount_mismatch" ∧ v.severity = "error") ↔
      tol < |pyRoundTo 2 (record.subtotal + record.tax_amount) -
        pyRoundTo 2 record.total_amount|)
    ∧ (validate_and_score record tol).validation_score =
        pyRoundTo 4 (max 0 (1 - ((validate_and_score record tol).violations.length : ℚ) / 3))
    ∧ ((validate_and_score record tol).is_valid = true ↔
        ∀ v ∈ (validate_and_score record tol).violations, v.severity ≠ "error") := by
  refine ⟨?_, rfl, ?_⟩
  · constructor
    · rintro ⟨v, hv, hcode, _⟩
      simp only [validate_and_score, evaluate_business_rules, List.mem_append] at hv
      rcases hv with (hv | hv) | hv
      · simp only [amountViolations] at hv
        split at hv
        · assumption
        · simp at hv
      · exact absurd hcode (lineViolations_code record tol v hv)
      · exact absurd hcode (idViolations_code record v hv)
    · intro hcond
      refine ⟨amountMismatchViolation (pyRoundTo 2 (record.subtotal + record.tax_amount))
        (pyRoundTo 2 record.total_amount), ?_, rfl, rfl⟩
      simp only [validate_and_score, evaluate_business_rules, List.mem_append]
      exact Or.inl (Or.inl (by simp [amountViolations, hcond]))
  · simp [validate_and_score, List.any_eq_false]

/-! ## JSON values (dynamic payloads)

Python distinguishes `int` and `float`; both satisfy
`isinstance(x, (int, float))`.  Floats are modelled as exact rationals. -/

inductive JVal where
  | null : JVal
  | bool : Bool → JVal
  | int : ℤ → JVal
  | num : ℚ → JVal
  | str : String → JVal
  | arr : List JVal → JVal
  | obj : List (String × JVal) → JVal

/-- JSON whitespace (`json.decoder.WHITESPACE`). -/
def jsonWs (c : Char) : Bool := c = ' ' || c = '\t' || c = '\n' || c = '\r'

def skipWs : List Char → List Char
  | [] => []
  | c :: rest => if jsonWs c then skipWs rest else c :: rest

def hexVal (c : Char) : Option Nat :=
  if c.isDigit then some (c.toNat - 48)
  else if 'a' ≤ c ∧ c ≤ 'f' then some (c.toNat - 87)
  else if 'A' ≤ c ∧ c ≤ 'F' then some (c.toNat - 55)
  else none

/-- Body of a JSON string after the opening quote, strict mode
(raw control characters rejected; `\uXXXX` mapped through `Char.ofNat`). -/
def parseJStr : Nat → List Char → Option (List Char × List Char)
  | 0, _ => none
  | _ + 1, [] => none
  | fuel + 1, c :: rest =>
      if c = '"' then some ([], rest)
      else if c = '\\' then
        match rest with
        | [] => none
        | e :: rest2 =>
            if e = 'u' then
              match rest2 with
              | h1 :: h2 :: h3 :: h4 :: rest3 =>
                  match hexVal h1, hexVal h2, hexVal h3, hexVal h4 with
                  | some a, some b, some c2, some d =>
                      match parseJStr fuel rest3 with
                      | some (s, r) => some (Char.ofNat (((a * 16 + b) * 16 + c2) * 16 + d) :: s, r)
                      | none => none
                  | _, _, _, _ => none
              | _ => none
            else
              match (if e = '"' then some '"'
                else if e = '\\' then some '\\'
                else if e = '/' then some '/'
                else if e = 'b' then some '\x08'
                else if e = 'f' then some '\x0c'
                else if e = 'n' then some '\n'
                else if e = 'r' then some '\r'
                else if e = 't' then some '\t'
                else none) with
              | some ch =>
                  match parseJStr fuel rest2 with
                  | some (s, r) => some (ch :: s, r)
                  | none => none
              | none => none
      else if c.toNat < 32 then none
      else
        match parseJStr fuel rest with
        | some (s, r) => some (c :: s, r)
        | none => none

def digitsVal (ds : List Char) : Nat :=
  ds.foldl (fun a c => a * 10 + (c.toNat - 48)) 0

/-- JSON number token (`json.scanner.NUMBER_RE`): `-?(0|[1-9]\d*)`
then optional `\.\d+` then optional `[eE][+-]?\d+`; an integer literal
yields a Python `int`, otherwise a `float`. -/
def parseJNum (cs : List Char) : Option (JVal × List Char) :=
  let signed := match cs with
    | '-' :: t => (true, t)
    | _ => (false, cs)
  let neg := signed.1
  let cs1 := signed.2
  let ip := cs1.takeWhile Char.isDigit
  let rest1 := cs1.dropWhile Char.isDigit
  if ip = [] then none
  else if ip.length > 1 ∧ ip.headD '0' = '0' then none
  else
    let fracPart : Option (List Char) × List Char :=
      match rest1 with
      | '.' :: t =>
          let fp := t.takeWhile Char.isDigit
          if fp = [] then (none, rest1) else (some fp, t.dropWhile Char.isDigit)
      | _ => (none, rest1)
    let fp := fracPart.1
    let rest2 := fracPart.2
    let expPart : Option ℤ × List Char :=
      match rest2 with
      | e :: t =>
          if e = 'e' ∨ e = 'E' then
            let esigned : Bool × List Char := match t with
              | '+' :: t2 => (false, t2)
              | '-' :: t2 => (true, t2)
              | _ => (false, t)
            let ed := esigned.2.takeWhile Char.isDigit
            if ed = [] then (none, rest2)
            else
              let ev : ℤ := (digitsVal ed : ℤ)
              (some (if esigned.1 then -ev else ev), esigned.2.dropWhile Char.isDigit)
          else (none, rest2)
      | _ => (none, rest2)
    let ex := expPart.1
    let rest3 := expPart.2
    match fp, ex with
    | none, none =>
        let n : ℤ := (digitsVal ip : ℤ)
        some (.int (if neg then -n else n), rest1)
    | _, _ =>
        let fdigits := fp.getD []
        let mant : ℚ := mkRat (Int.ofNat (digitsVal ip * 10 ^ fdigits.length + digitsVal fdigits))
          (10 ^ fdigits.length)
        let value : ℚ := match ex.getD 0 with
          | Int.ofNat e => qmul mant (mkRat (Int.ofNat (10 ^ e)) 1)
          | Int.negSucc e => qmul mant (mkRat 1 (10 ^ (e + 1)))
        some (.num (if neg then qneg value else value), rest3)

/-- `dict(pairs)` behaviour: a duplicate key keeps its first position but
takes the last value. -/
def objInsert (kvs : List (String × JVal)) (k : String) (v : JVal) : List (String × JVal) :=
  match kvs with
  | [] => [(k, v)]
  | (k', v') :: rest => if k' = k then (k', v) :: rest else (k', v') :: objInsert rest k v

/-- Parser mode: one value, array members (after `[` or a comma), or
object members (after `\x7b` or a comma). -/
inductive PMode where
  | pval : PMode
  | parr : List JVal → Bool → PMode
  | pobj : List (String × JVal) → Bool → PMode

/-- Recursive-descent JSON parser, fuelled (structural recursion on the
fuel so that concrete inputs evaluate by `rfl`/`decide`). -/
def parseJ : Nat → PMode → List Char → Option (JVal × List Char)
  | 0, _, _ => none
  | fuel + 1, .pval, cs =>
      (match skipWs cs with
      | [] => none
      | c :: rest =>
          if c = '"' then
            match parseJStr fuel rest with
            | some (s, r) => some (.str (String.mk s), r)
            | none => none
          else if c = '\x7b' then parseJ fuel (.pobj [] true) rest
          else if c = '[' then parseJ fuel (.parr [] true) rest
          else
            match c :: rest with
            | 't' :: 'r' :: 'u' :: 'e' :: r => some (.bool true, r)
            | 'f' :: 'a' :: 'l' :: 's' :: 'e' :: r => some (.bool false, r)
            | 'n' :: 'u' :: 'l' :: 'l' :: r => some (.null, r)
            | cs2 => parseJNum cs2)
  | fuel + 1, .parr acc isFirst, cs =>
      (match skipWs cs with
      | ']' :: r =>
          if isFirst then some (.arr acc.reverse, r) else none
      | cs2 =>
          match parseJ fuel .pval cs2 with
          | none => none
          | some (v, r) =>
              match skipWs r with
              | ',' :: r2 => parseJ fuel (.parr (v :: acc) false) r2
              | ']' :: r2 => some (.arr (v :: acc).reverse, r2)
              | _ => none)
  | fuel + 1, .pobj acc isFirst, cs =>
      (match skipWs cs with
      | '\x7d' :: r =>
          if isFirst then some (.obj acc, r) else none
      | '"' :: r =>
          (match parseJStr fuel r with
          | none => none
          | some (k, r2) =>
              match skipWs r2 with
              | ':' :: r3 =>
                  match parseJ fuel .pval r3 with
                  | none => none
                  | some (v, r4) =>
                      let acc2 := objInsert acc (String.mk k) v
                      match skipWs r4 with
                      | ',' :: r5 => parseJ fuel (.pobj acc2 false) r5
                      | '\x7d' :: r5 => some (.obj acc2, r5)
                      | _ => none
              | _ => none)
      | _ => none)

/-- `json.loads` on a document string: one value, optionally surrounded by
whitespace, nothing else.  The fuel bound is generous: every recursive
descent consumes at least one character. -/
def json_loads (s : String) : Option JVal :=
  match parseJ (4 * (s.length + 1)) .pval s.data with
  | some (v, rest) => if skipWs rest = [] then some v else none
  | none => none

/-! ## Extraction orchestrator (src/app/extraction_service.py) -/

/-- `ExtractionError.code` values. -/
inductive ExtractCode where
  | unsupported_type
  | file_not_found
  | missing_api_key
  | unsupported_provider
  | invalid_json
  | invalid_json_shape
  | empty_response
  | provider_request_failed
  | all_providers_failed
  | extraction_failed
deriving DecidableEq

/-- Outcome of one `client.extract_json` call: raw text, or an exception
that propagates out of `extract_document`. -/
inductive CallResult where
  | text : String → CallResult
  | raised : ExtractCode → CallResult

/-- `_parse_json_payload`: `json.loads`, then the payload must be a JSON
object. -/
def parse_json_payload (raw_text : String) : Except ExtractCode (List (String × JVal)) :=
  match json_loads raw_text with
  | none => .error .invalid_json
  | some (.obj kvs) => .ok kvs
  | some _ => .error .invalid_json_shape

/-- `extract_document` with an explicitly passed client, modelled by the
outcomes of its successive `extract_json` calls; the second component
counts the calls made.  The client call itself sits outside the
`try`, so a client exception propagates with no corrective retry; only a
parse failure with code `invalid_json` or `invalid_json_shape` triggers the
single corrective call, whose parse outcome is returned as-is. -/
def extract_document (fileExists : Bool) (first second : CallResult) :
    Except ExtractCode (List (String × JVal)) × Nat :=
  if !fileExists then (.error .file_not_found, 0)
  else
    match first with
    | .raised e => (.error e, 1)
    | .text s =>
        match parse_json_payload s with
        | .ok payload => (.ok payload, 1)
        | .error c =>
            if c = .invalid_json ∨ c = .invalid_json_shape then
              match second with
              | .raised e => (.error e, 2)
              | .text s2 => (parse_json_payload s2, 2)
            else (.error c, 1)

/-- Python `"_provider" in payload`. -/
def objHasKey (kvs : List (String × JVal)) (k : String) : Bool :=
  kvs.any (fun p => p.1 == k)

theorem parse_json_payload_error_codes (s : String) (c : ExtractCode) :
    parse_json_payload s = .error c → c = .invalid_json ∨ c = .invalid_json_shape := by
  unfold parse_json_payload
  match json_loads s with
  | none => intro h; exact Or.inl (by cases h; rfl)
  | some (.obj kvs) => intro h; cases h
  | some .null => intro h; exact Or.inr (by cases h; rfl)
  | some (.bool b) => intro h; exact Or.inr (by cases h; rfl)
  | some (.int n) => intro h; exact Or.inr (by cases h; rfl)
  | some (.num q) => intro h; exact Or.inr (by cases h; rfl)
  | some (.str s') => intro h; exact Or.inr (by cases h; rfl)
  | some (.arr xs) => intro h; exact Or.inr (by cases h; rfl)

/-- C5.  `extract_document` re-calls the client with the corrective prompt
only when the first response failed to parse (codes `invalid_json` /
`invalid_json_shape`, the only parse failures); a client exception on the
first call propagates with one call made, a parse success returns with one
call made, and after a corrective call the second outcome is surfaced
as-is.  Concretely, `"not json"` followed by the recovered object parses to
the second object with exactly two calls. -/
theorem extract_document_corrective_retry :
    (∀ e : ExtractCode, ∀ second : CallResult,
       extract_document true (.raised e) second = (.error e, 1))
    ∧ (∀ s : String, ∀ second : CallResult,
       ∀ kvs : List (String × JVal), parse_json_payload s = .ok kvs →
       extract_document true (.text s) second = (.ok kvs, 1))
    ∧ (∀ s : String, ∀ c : ExtractCode, parse_json_payload s = .error c →
       (c = .invalid_json ∨ c = .invalid_json_shape)
       ∧ (∀ s2 : String,
           extract_document true (.text s) (.text s2) = (parse_json_payload s2, 2))
       ∧ (∀ e : ExtractCode,
           extract_document true (.text s) (.raised e) = (.error e, 2)))
    ∧ extract_document true (.text "not json")
        (.text "\x7b\"vendor_name\":\"Recovered\",\"total_amount\":100.0\x7d") =
      (.ok [("vendor_name", .str "Recovered"), ("total_amount", .num 100)], 2) := by
  refine ⟨fun e second => rfl, ?_, ?_, ?_⟩
  · intro s second kvs h
    simp [extract_document, h]
  · intro s c h
    have hc := parse_json_payload_error_codes s c h
    refine ⟨hc, ?_, ?_⟩
    · intro s2
      simp only [extract_document, h, Bool.not_true]
      rw [if_neg (by simp), if_pos hc]
    · intro e
      simp only [extract_document, h, Bool.not_true]
      rw [if_neg (by simp), if_pos hc]
  · rfl

/-- Witness for C5 at concrete inputs: a raised `empty_response`
propagates with one call; a valid first response returns with one call. -/
theorem extract_document_corrective_retry_witness :
    extract_document true (.raised .empty_response) (.text "x") =
      (.error .empty_response, 1)
    ∧ extract_document true (.text "\x7b\x7d") (.raised .empty_response) =
      (.ok [], 1) :=
  ⟨extract_document_corrective_retry.1 .empty_response (.text "x"),
   extract_document_corrective_retry.2.1 "\x7b\x7d" (.raised .empty_response) [] rfl⟩

/-- C7 (code evaluation).  On a first response that parses as a JSON
object, `extract_document` returns the parsed object unchanged: no
`_provider` key is attached anywhere (the repo's own test
`test_extract_document_success_first_try` expects `payload["_provider"] ==
"auto"` on this very input). -/
theorem extract_document_no_provider_key :
    extract_document true (.text "\x7b\"vendor_name\":\"Test\",\"total_amount\":12.5\x7d")
        (.text "ignored") =
      (.ok [("vendor_name", .str "Test"), ("total_amount", .num (mkRat 25 2))], 1)
    ∧ objHasKey [("vendor_name", .str "Test"), ("total_amount", .num (mkRat 25 2))]
        "_provider" = false := by
  exact ⟨rfl, rfl⟩

/-! ## Python value semantics over `JVal`
(str(), truthiness, lower/upper, substring, splitlines) -/

/-- Python truthiness `bool(x)`. -/
def pyFalsy : JVal → Bool
  | .null => true
  | .bool b => !b
  | .int n => n == 0
  | .num q => q == 0
  | .str s => s == ""
  | .arr xs => xs.isEmpty
  | .obj kvs => kvs.isEmpty

/-- Python `x in (None, "")`, the emptiness filter of `_pick`. -/
def isNoneOrEmptyStr : JVal → Bool
  | .null => true
  | .str s => s == ""
  | _ => false

/-- Decimal rendering of a float modelled as a rational: `repr` for values
with a finite decimal expansion (Python floats always have one; scientific
notation for extreme magnitudes is out of scope and rendered plainly). -/
def qRepr (q : ℚ) : String :=
  if q.den = 1 then toString q.num ++ ".0"
  else
    match (List.range 31).find? (fun k => 10 ^ k % q.den == 0) with
    | some k =>
        let a := (q.num * (10 ^ k / q.den : ℕ)).natAbs
        let fracDigits := toString (a % 10 ^ k)
        let fracPadded := String.mk (List.replicate (k - fracDigits.length) '0') ++ fracDigits
        (if q.num < 0 then "-" else "") ++ toString (a / 10 ^ k) ++ "." ++ fracPadded
    | none => toString q.num ++ "/" ++ toString q.den

def joinSep (sep : String) : List String → String
  | [] => ""
  | [s] => s
  | s :: rest => s ++ sep ++ joinSep sep rest

/-- Python `repr`, fuelled by term size (strings are quoted inside
containers; quote-escaping subtleties are cosmetic and out of scope). -/
def pyReprF : Nat → JVal → String
  | _, .null => "None"
  | _, .bool true => "True"
  | _, .bool false => "False"
  | _, .int n => toString n
  | _, .num q => qRepr q
  | _, .str s => "\x27" ++ s ++ "\x27"
  | 0, .arr _ => ""
  | 0, .obj _ => ""
  | fuel + 1, .arr xs => "[" ++ joinSep ", " (xs.map (pyReprF fuel)) ++ "]"
  | fuel + 1, .obj kvs =>
      "\x7b" ++
        joinSep ", " (kvs.map (fun p => "\x27" ++ p.1 ++ "\x27: " ++ pyReprF fuel p.2)) ++
        "\x7d"

/-- Python `str(x)`.  The repr recursion is fuelled by CPython's default
recursion limit; deeper nesting would raise `RecursionError` in the
source. -/
def pyStr : JVal → String
  | .str s => s
  | v => pyReprF 1000 v

def pyLower (s : String) : String := String.mk (s.data.map Char.toLower)

def pyUpper (s : String) : String := String.mk (s.data.map Char.toUpper)

/-- Python `needle in hay` on strings. -/
def listContainsSub : List Char → List Char → Bool
  | _, [] => true
  | [], _ :: _ => false
  | h :: t, n :: ns => (n :: ns).isPrefixOf (h :: t) || listContainsSub t (n :: ns)

def strContainsSub (hay needle : String) : Bool := listContainsSub hay.data needle.data

/-- Python `str.splitlines` (`\n`, `\r\n`, `\r`; no trailing empty line). -/
def splitlinesAux : List Char → List Char → List (List Char)
  | [], [] => []
  | [], acc => [acc.reverse]
  | '\r' :: '\n' :: rest, acc => acc.reverse :: splitlinesAux rest []
  | '\n' :: rest, acc => acc.reverse :: splitlinesAux rest []
  | '\r' :: rest, acc => acc.reverse :: splitlinesAux rest []
  | c :: rest, acc => splitlinesAux rest (c :: acc)

def pySplitlines (s : String) : List String := (splitlinesAux s.data []).map String.mk

/-! ## `NormalizationRuleEngine._safe_float` -/

/-- The character class kept by `re.sub(r"[^0-9,.\-]", "", text)`. -/
def keepNumChars (s : String) : String :=
  String.mk (s.data.filter (fun c => c.isDigit || c = ',' || c = '.' || c = '-'))

def removeCommas (s : String) : String := String.mk (s.data.filter (fun c => c ≠ ','))

/-- Python `float(text)` restricted to the post-filter alphabet
`[0-9.\-]`: optional leading minus, at least one digit, at most one dot. -/
def parseFloatQ (s : String) : Option ℚ :=
  let signed : Bool × List Char := match s.data with
    | '-' :: t => (true, t)
    | cs => (false, cs)
  let neg := signed.1
  let cs := signed.2
  let ip := cs.takeWhile Char.isDigit
  let rest := cs.drop ip.length
  let mkVal : List Char → List Char → ℚ := fun ipd fpd =>
    let m : ℤ := Int.ofNat (digitsVal ipd * 10 ^ fpd.length + digitsVal fpd)
    mkRat (if neg then -m else m) (10 ^ fpd.length)
  match rest with
  | [] => if ip = [] then none else some (mkVal ip [])
  | '.' :: t =>
      let fp := t.takeWhile Char.isDigit
      let rest2 := t.drop fp.length
      if rest2 ≠ [] then none
      else if ip = [] ∧ fp = [] then none
      else some (mkVal ip fp)
  | _ => none

/-- `_safe_float` on a string value after the `None`/`""` check. -/
def safeFloatText (s : String) (dflt : ℚ) : ℚ :=
  let text := removeCommas (keepNumChars (pyStrip s))
  if text = "" then dflt
  else match parseFloatQ text with
    | some q => q
    | none => dflt

/-- `NormalizationRuleEngine._safe_float`.  `bool` satisfies
`isinstance(value, (int, float))` with `float(True) = 1.0`. -/
def safeFloat (v : JVal) (dflt : ℚ) : ℚ :=
  match v with
  | .null => dflt
  | .bool b => if b then 1 else 0
  | .int n => mkRat n 1
  | .num q => q
  | .str s => if s = "" then dflt else safeFloatText s dflt
  | v => safeFloatText (pyStr v) dflt

/-! ## Dates (`_normalize_date`, `_extract_date_from_ocr`)

CPython `strptime` compiles each directive to a regex: `%Y` is exactly four
digits, `%m`/`%d` are one or two digits range-checked with backtracking,
`%B`/`%b` match month names case-insensitively, literal whitespace matches
a whitespace run; the whole string must be consumed, and `datetime(y, m, d)`
then validates the calendar date. -/

structure PyDate where
  y : ℕ
  m : ℕ
  d : ℕ
deriving DecidableEq, Repr

def isLeap (y : ℕ) : Bool := (y % 4 == 0 && y % 100 != 0) || y % 400 == 0

def daysInMonth (y m : ℕ) : ℕ :=
  if m = 2 then (if isLeap y then 29 else 28)
  else if m = 4 ∨ m = 6 ∨ m = 9 ∨ m = 11 then 30
  else 31

/-- `datetime(y, m, d)` succeeds. -/
def validDate (dt : PyDate) : Bool :=
  decide (1 ≤ dt.y) && decide (dt.y ≤ 9999) && decide (1 ≤ dt.m) && decide (dt.m ≤ 12) &&
    decide (1 ≤ dt.d) && decide (dt.d ≤ daysInMonth dt.y dt.m)

def digitChar (n : ℕ) : Char := Char.ofNat (48 + n % 10)

def pad2 (n : ℕ) : String := String.mk [digitChar (n / 10), digitChar n]

def pad4 (n : ℕ) : String :=
  String.mk [digitChar (n / 1000), digitChar (n / 100), digitChar (n / 10), digitChar n]

/-- `strftime("%Y-%m-%d")` (zero-padded). -/
def renderDate (dt : PyDate) : String := pad4 dt.y ++ "-" ++ pad2 dt.m ++ "-" ++ pad2 dt.d

/-- `%Y`: exactly four digits. -/
def readYear4 : List Char → Option (ℕ × List Char)
  | a :: b :: c :: d :: rest =>
      if a.isDigit && b.isDigit && c.isDigit && d.isDigit then
        some (digitsVal [a, b, c, d], rest)
      else none
  | _ => none

/-- `%m` / `%d`: a one- or two-digit number in `[lo, hi]`, with the
regex's two-digit-first backtracking. -/
def readNum2 (lo hi : ℕ) (cs : List Char) : Option (ℕ × List Char) :=
  let ds := (cs.takeWhile Char.isDigit).take 2
  if ds = [] then none
  else
    let v := digitsVal ds
    if lo ≤ v ∧ v ≤ hi then some (v, cs.drop ds.length)
    else if ds.length = 2 then
      let v1 := digitsVal (ds.take 1)
      if lo ≤ v1 ∧ v1 ≤ hi then some (v1, cs.drop 1) else none
    else none

/-- A literal separator character. -/
def readSep (c : Char) : List Char → Option (List Char)
  | x :: rest => if x = c then some rest else none
  | [] => none

/-- Literal whitespace in the format: `\s+`. -/
def readWs (cs : List Char) : Option (List Char) :=
  match cs with
  | x :: rest => if pyIsSpace x then some (rest.dropWhile pyIsSpace) else none
  | [] => none

def monthNames : List (String × ℕ) :=
  [("january", 1), ("february", 2), ("march", 3), ("april", 4), ("may", 5), ("june", 6),
   ("july", 7), ("august", 8), ("september", 9), ("october", 10), ("november", 11),
   ("december", 12)]

def monthAbbrs : List (String × ℕ) :=
  [("jan", 1), ("feb", 2), ("mar", 3), ("apr", 4), ("may", 5), ("jun", 6),
   ("jul", 7), ("aug", 8), ("sep", 9), ("oct", 10), ("nov", 11), ("dec", 12)]

/-- `%B` / `%b`: case-insensitive month-name match. -/
def readMonthName : List (String × ℕ) → List Char → Option (ℕ × List Char)
  | [], _ => none
  | (nm, v) :: rest, cs =>
      if nm.data.isPrefixOf (cs.map Char.toLower) then some (v, cs.drop nm.data.length)
      else readMonthName rest cs

def checkDate (dt : PyDate) : Option PyDate := if validDate dt then some dt else none

/-- `"%Y-%m-%d"`. -/
def parseYmd (cs : List Char) : Option PyDate :=
  (readYear4 cs).bind fun py =>
  (readSep '-' py.2).bind fun r2 =>
  (readNum2 1 12 r2).bind fun pm =>
  (readSep '-' pm.2).bind fun r4 =>
  (readNum2 1 31 r4).bind fun pd =>
  if pd.2 = [] then checkDate ⟨py.1, pm.1, pd.1⟩ else none

/-- `"%d-%m-%Y"` / `"%d/%m/%Y"`. -/
def parseDmy (sep : Char) (cs : List Char) : Option PyDate :=
  (readNum2 1 31 cs).bind fun pd =>
  (readSep sep pd.2).bind fun r2 =>
  (readNum2 1 12 r2).bind fun pm =>
  (readSep sep pm.2).bind fun r4 =>
  (readYear4 r4).bind fun py =>
  if py.2 = [] then checkDate ⟨py.1, pm.1, pd.1⟩ else none

/-- `"%m/%d/%Y"`. -/
def parseMdy (cs : List Char) : Option PyDate :=
  (readNum2 1 12 cs).bind fun pm =>
  (readSep '/' pm.2).bind fun r2 =>
  (readNum2 1 31 r2).bind fun pd =>
  (readSep '/' pd.2).bind fun r4 =>
  (readYear4 r4).bind fun py =>
  if py.2 = [] then checkDate ⟨py.1, pm.1, pd.1⟩ else none

/-- `"%B %d, %Y"` / `"%b %d, %Y"`. -/
def parseMonthNameDate (tbl : List (String × ℕ)) (cs : List Char) : Option PyDate :=
  (readMonthName tbl cs).bind fun pm =>
  (readWs pm.2).bind fun r2 =>
  (readNum2 1 31 r2).bind fun pd =>
  (readSep ',' pd.2).bind fun r4 =>
  (readWs r4).bind fun r5 =>
  (readYear4 r5).bind fun py =>
  if py.2 = [] then checkDate ⟨py.1, pm.1, pd.1⟩ else none

/-- The format cascade of `_normalize_date`. -/
def strptimeFormats (text : String) : Option PyDate :=
  parseYmd text.data <|> parseDmy '-' text.data <|> parseDmy '/' text.data <|>
    parseMdy text.data <|> parseMonthNameDate monthNames text.data <|>
    parseMonthNameDate monthAbbrs text.data

/-- `NormalizationRuleEngine._normalize_date`. -/
def normalize_date (v : JVal) : Option String :=
  if pyFalsy v then none
  else (strptimeFormats (pyStrip (pyStr v))).map renderDate

/-! OCR date scan:
`\b(\d{1,2}[slash dash]\d{1,2}[slash dash]\d{2,4}|\d{4}[slash dash]\d{1,2}[slash dash]\d{1,2})\b`. -/

/-- Python `\w` (ASCII model). -/
def isWordChar (c : Char) : Bool := c.isAlphanum || c = '_'

def noWordAhead : List Char → Bool
  | [] => true
  | c :: _ => !isWordChar c

/-- `[slash dash]`. -/
def readDateSep : List Char → Option (Char × List Char)
  | c :: r => if c = '/' ∨ c = '-' then some (c, r) else none
  | [] => none

/-- `\d{1,2}` followed by a non-digit (the separator), so the maximal
one-or-two-digit take is exact. -/
def matchD12 (cs : List Char) : Option (List Char × List Char) :=
  let ds := (cs.takeWhile Char.isDigit).take 2
  if ds = [] then none else some (ds, cs.drop ds.length)

/-- First alternative `\d{1,2}[slash dash]\d{1,2}[slash dash]\d{2,4}` with the trailing
`\b`; the final run must be 2–4 digits exactly (a longer run leaves a
digit — a word character — right after every candidate take). -/
def matchAlt1 (cs : List Char) : Option (List Char × List Char) :=
  (matchD12 cs).bind fun p1 =>
  (readDateSep p1.2).bind fun s1 =>
  (matchD12 s1.2).bind fun p2 =>
  (readDateSep p2.2).bind fun s2 =>
  let run := s2.2.takeWhile Char.isDigit
  if 2 ≤ run.length ∧ run.length ≤ 4 ∧ noWordAhead (s2.2.drop run.length) then
    some (p1.1 ++ s1.1 :: p2.1 ++ s2.1 :: run, s2.2.drop run.length)
  else none

/-- Second alternative `\d{4}[slash dash]\d{1,2}[slash dash]\d{1,2}` with the trailing
`\b`. -/
def matchAlt2 (cs : List Char) : Option (List Char × List Char) :=
  (readYear4 cs).bind fun _ =>
  let d1 := cs.take 4
  (readDateSep (cs.drop 4)).bind fun s1 =>
  (matchD12 s1.2).bind fun p2 =>
  (readDateSep p2.2).bind fun s2 =>
  let run := s2.2.takeWhile Char.isDigit
  if 1 ≤ run.length ∧ run.length ≤ 2 ∧ noWordAhead (s2.2.drop run.length) then
    some (d1 ++ s1.1 :: p2.1 ++ s2.1 :: run, s2.2.drop run.length)
  else none

/-- `re.findall` scan: left to right, leading `\b` (both alternatives
start with a digit), resume after each match. -/
def findDateCandidates : Nat → Bool → List Char → List String
  | 0, _, _ => []
  | _ + 1, _, [] => []
  | fuel + 1, bnd, c :: rest =>
      if bnd && c.isDigit then
        match matchAlt1 (c :: rest) with
        | some (m, r) => String.mk m :: findDateCandidates fuel false r
        | none =>
            match matchAlt2 (c :: rest) with
            | some (m, r) => String.mk m :: findDateCandidates fuel false r
            | none => findDateCandidates fuel (!isWordChar c) rest
      else findDateCandidates fuel (!isWordChar c) rest

def firstNormalized : List String → Option String
  | [] => none
  | c :: rest =>
      match normalize_date (.str c) with
      | some d => some d
      | none => firstNormalized rest

/-- `NormalizationRuleEngine._extract_date_from_ocr`. -/
def extract_date_from_ocr (text : String) : Option String :=
  firstNormalized (findDateCandidates (text.length + 1) true text.data)

/-! ## NormalizationRuleEngine: rules, field picking -/

/-- An engine instance after `__init__` (alias tables, keyword maps with
ignore keywords already lower-cased, numeric defaults as floats). -/
structure Rules where
  field_aliases : List (String × List String)
  line_item_aliases : List (String × List String)
  payment_method_map : List (String × List String)
  line_item_ignore_keywords : List String
  amount_tolerance : ℚ
  default_currency : String
  default_document_type : String
  default_confidence : ℚ

/-- Modelled from the spec: the engine's rules file
`config/normalization_rules.json` (loaded via `NORMALIZATION_RULES_PATH`)
is not part of the `src/` tree.  Its content is modelled from §4.4 of the
spec — defaults `amount_tolerance 0.01`, `default_currency "BDT"`,
`default_document_type "invoice"`, `default_confidence 0.8`, ignore
keywords for subtotal/discount/tax rows — with the alias tables of the
engine's own test fixture (src/tests/test_normalization_engine.py). -/
def repoRules : Rules :=
  { field_aliases :=
      [("vendor_name", ["vendor_name", "vendor"]),
       ("invoice_date", ["invoice_date", "date_paid"]),
       ("currency", ["currency"]),
       ("subtotal_amount", ["subtotal"]),
       ("tax_amount", ["tax_amount", "tax"]),
       ("total_amount", ["total_amount", "total", "amount_paid"]),
       ("payment_method", ["payment_method"]),
       ("line_items", ["line_items", "items"]),
       ("model_confidence", ["model_confidence", "confidence"]),
       ("invoice_number", ["invoice_number", "receipt_number"]),
       ("vendor_tax_id", ["vendor_tax_id", "tax_id"]),
       ("due_date", ["due_date"])],
    line_item_aliases :=
      [("description", ["description", "name"]),
       ("quantity", ["quantity", "qty"]),
       ("unit_price", ["unit_price", "price"]),
       ("line_total", ["line_total", "amount", "total"]),
       ("category", ["category"])],
    payment_method_map :=
      [("card", ["card", "mastercard"]),
       ("cash", ["cash", "cod"]),
       ("bank", ["bank", "transfer"])],
    line_item_ignore_keywords := ["subtotal", "discount", "tax"],
    amount_tolerance := mkRat 1 100,
    default_currency := "BDT",
    default_document_type := "invoice",
    default_confidence := mkRat 4 5 }

/-- `self.field_aliases.get(field_name, [field_name])`. -/
def lookupAliases (tbl : List (String × List String)) (field : String) : List String :=
  match tbl.lookup field with
  | some l => l
  | none => [field]

/-- Python `data[key]` lookup on a dict embedded as an association list
(keys unique, first match). -/
def getKey (kvs : List (String × JVal)) (k : String) : Option JVal :=
  match kvs with
  | [] => none
  | (k', v) :: rest => if k' = k then some v else getKey rest k

def splitDotsAux : List Char → List Char → List String
  | [], acc => [String.mk acc.reverse]
  | '.' :: rest, acc => String.mk acc.reverse :: splitDotsAux rest []
  | c :: rest, acc => splitDotsAux rest (c :: acc)

/-- `path.split(".")`. -/
def splitDots (s : String) : List String := splitDotsAux s.data []

/-- `NormalizationRuleEngine._nested_get` (missing key / non-dict →
`None`). -/
def nestedGetPath : JVal → List String → JVal
  | cur, [] => cur
  | .obj kvs, k :: rest =>
      (match getKey kvs k with
      | some v => nestedGetPath v rest
      | none => .null)
  | _, _ :: _ => .null

/-- The alias walk of `NormalizationRuleEngine._pick`: first alias whose
value is neither `None` nor `""` wins; dotted aliases resolve nested. -/
def pickFrom (aliases : List String) (data : List (String × JVal)) (dflt : JVal) : JVal :=
  match aliases with
  | [] => dflt
  | a :: rest =>
      if a.data.contains '.' then
        let value := nestedGetPath (.obj data) (splitDots a)
        if isNoneOrEmptyStr value then pickFrom rest data dflt else value
      else
        match getKey data a with
        | some v => if isNoneOrEmptyStr v then pickFrom rest data dflt else v
        | none => pickFrom rest data dflt

/-- `NormalizationRuleEngine._pick`. -/
def pick (rules : Rules) (data : List (String × JVal)) (field : String) (dflt : JVal) : JVal :=
  pickFrom (lookupAliases rules.field_aliases field) data dflt

/-- `NormalizationRuleEngine._pick_item` (no dotted aliases). -/
def pickItemFrom (aliases : List String) (data : List (String × JVal)) (dflt : JVal) : JVal :=
  match aliases with
  | [] => dflt
  | a :: rest =>
      match getKey data a with
      | some v => if isNoneOrEmptyStr v then pickItemFrom rest data dflt else v
      | none => pickItemFrom rest data dflt

def pickItem (rules : Rules) (data : List (String × JVal)) (field : String) (dflt : JVal) :
    JVal :=
  pickItemFrom (lookupAliases rules.line_item_aliases field) data dflt

/-- `NormalizationRuleEngine._normalize_vendor_name`. -/
def normalize_vendor_name (rules : Rules) (raw : List (String × JVal)) : String :=
  let value := pick rules raw "vendor_name" (.str "Unknown Vendor")
  match value with
  | .obj kvs =>
      (match getKey kvs "name" with
      | some (.str s) => if pyStrip s ≠ "" then pyStrip s else "Unknown Vendor"
      | _ => "Unknown Vendor")
  | v =>
      let s := pyStrip (pyStr v)
      if s = "" then "Unknown Vendor" else s

def firstMatchingMethod : List (String × List String) → String → String
  | [], _ => "unknown"
  | (canonical, keywords) :: rest, text =>
      if keywords.any (fun kw => strContainsSub text (pyLower kw)) then canonical
      else firstMatchingMethod rest text

/-- `NormalizationRuleEngine._normalize_payment_method`
(`str(value or "").lower()`, first keyword map hit wins). -/
def normalize_payment_method (rules : Rules) (v : JVal) : String :=
  let text := pyLower (pyStr (if pyFalsy v then .str "" else v))
  firstMatchingMethod rules.payment_method_map text

/-! ## Line items -/

/-- One coerced line-item dictionary. -/
structure NItem where
  description : String
  quantity : ℚ
  unit_price : ℚ
  line_total : ℚ
  category : JVal

instance : Inhabited NItem := ⟨⟨"", 0, 0, 0, .null⟩⟩

/-- The dictionary shape the engine builds for each item. -/
def NItem.toJVal (it : NItem) : JVal :=
  .obj [("description", .str it.description), ("quantity", .num it.quantity),
        ("unit_price", .num it.unit_price), ("line_total", .num it.line_total),
        ("category", it.category)]

/-- The per-item body of `_normalize_line_items`. -/
def coerceItem (rules : Rules) (item : List (String × JVal)) : NItem :=
  let desc := pyStrip (pyStr (pickItem rules item "description" (.str "item")))
  let qty := safeFloat (pickItem rules item "quantity" (.num 1)) 1
  let unit := safeFloat (pickItem rules item "unit_price" (.num 0)) 0
  let total := safeFloat (pickItem rules item "line_total" (.num (qmul qty unit))) (qmul qty unit)
  { description := desc, quantity := max qty (mkRat 1 10000),
    unit_price := max unit 0, line_total := max total 0,
    category := pickItem rules item "category" .null }

/-- The list loop of `_normalize_line_items` (non-dict entries skipped). -/
def coerceItems (rules : Rules) : List JVal → List NItem
  | [] => []
  | .obj kvs :: rest => coerceItem rules kvs :: coerceItems rules rest
  | _ :: rest => coerceItems rules rest

/-- `NormalizationRuleEngine._should_ignore_line_item`. -/
def should_ignore_line_item (rules : Rules) (description : String) : Bool :=
  let desc := pyLower (pyStrip description)
  if desc = "" then true
  else rules.line_item_ignore_keywords.any (fun kw => strContainsSub desc kw)

/-! OCR line recovery, strict pattern
`^(?P<desc>.+?)\s+(?P<qty>\d+(?:\.\d+)?)\s+(?P<unit>\$?\d[\d,]*(?:\.\d+)?)\s+(?P<total>\$?\d[\d,]*(?:\.\d+)?)$` -/

/-- `\d+(?:\.\d+)?` (a following whitespace or end keeps the greedy take
exact). -/
def readNumTok (cs : List Char) : Option (List Char × List Char) :=
  let ds := cs.takeWhile Char.isDigit
  if ds = [] then none
  else
    let rest := cs.drop ds.length
    match rest with
    | '.' :: t =>
        let fs := t.takeWhile Char.isDigit
        if fs = [] then some (ds, rest)
        else some (ds ++ '.' :: fs, t.drop fs.length)
    | _ => some (ds, rest)

/-- `\$?\d[\d,]*(?:\.\d+)?`. -/
def readMoneyTok (cs : List Char) : Option (List Char × List Char) :=
  let dollar : List Char × List Char := match cs with
    | '$' :: t => (['$'], t)
    | _ => ([], cs)
  match dollar.2 with
  | c :: rest =>
      if !c.isDigit then none
      else
        let body := rest.takeWhile (fun ch => ch.isDigit || ch = ',')
        let r1 := rest.drop body.length
        match r1 with
        | '.' :: t =>
            let fs := t.takeWhile Char.isDigit
            if fs = [] then some (dollar.1 ++ c :: body, r1)
            else some (dollar.1 ++ c :: body ++ '.' :: fs, t.drop fs.length)
        | _ => some (dollar.1 ++ c :: body, r1)
  | [] => none

/-- `\s+ qty \s+ unit \s+ total $` after the lazy description. -/
def matchStrictTail (cs : List Char) : Option (List Char × List Char × List Char) :=
  (readWs cs).bind fun r1 =>
  (readNumTok r1).bind fun pq =>
  (readWs pq.2).bind fun r3 =>
  (readMoneyTok r3).bind fun pu =>
  (readWs pu.2).bind fun r5 =>
  (readMoneyTok r5).bind fun pt =>
  if pt.2 = [] then some (pq.1, pu.1, pt.1) else none

/-- Lazy `.+?`: the shortest non-empty description prefix whose remainder
matches the tail. -/
def strictMatchAux : Nat → List Char → List Char →
    Option (List Char × List Char × List Char × List Char)
  | 0, _, _ => none
  | _ + 1, _, [] => none
  | fuel + 1, descRev, c :: rest =>
      match matchStrictTail rest with
      | some (q, u, t) => some ((c :: descRev).reverse, q, u, t)
      | none => strictMatchAux fuel (c :: descRev) rest

/-- The strict four-group regex on one stripped line: groups
`(desc, qty, unit, total)`. -/
def strictMatch (compact : String) : Option (List Char × List Char × List Char × List Char) :=
  strictMatchAux (compact.length + 1) [] compact.data

/-- `NormalizationRuleEngine._recover_line_items_from_ocr`, one line. -/
def engineRecoverLine (rules : Rules) (line : String) : Option NItem :=
  let compact := pyStrip line
  if compact.length < 8 then none
  else
    match strictMatch compact with
    | none => none
    | some (desc, q, u, t) =>
        let descS := pyStrip (String.mk desc)
        let qty := safeFloat (.str (String.mk q)) 1
        let unit := safeFloat (.str (String.mk u)) 0
        let total := safeFloat (.str (String.mk t)) (qmul qty unit)
        if total ≤ 0 then none
        else if should_ignore_line_item rules descS then none
        else some
          { description := descS, quantity := max qty (mkRat 1 10000),
            unit_price := max unit 0, line_total := max total 0, category := .null }

/-- `NormalizationRuleEngine._recover_line_items_from_ocr`. -/
def recover_line_items_from_ocr (rules : Rules) (text : String) : List NItem :=
  (pySplitlines text).filterMap (engineRecoverLine rules)

/-- `NormalizationRuleEngine._normalize_line_items`. -/
def normalize_line_items (rules : Rules) (raw : JVal) (ocr_text : String) : List NItem :=
  let items := match raw with
    | .arr xs => coerceItems rules xs
    | _ => []
  if !items.isEmpty && items.any (fun i => decide (0 < i.line_total)) then items
  else
    let recovered := recover_line_items_from_ocr rules ocr_text
    if recovered.isEmpty then items else recovered

/-! ## Subset-sum reconciliation (`_reconcile_line_items`) -/

def hasSum (l : List (ℤ × List ℕ)) (s : ℤ) : Bool := l.any (fun p => p.1 == s)

/-- One pass of the inner `for current_sum, picked in reachable.items()`
loop, collecting `updates` in insertion order. -/
def dpCollect (orig : List (ℤ × List ℕ)) (idx : ℕ) (value bound : ℤ) :
    List (ℤ × List ℕ) → List (ℤ × List ℕ) → List (ℤ × List ℕ)
  | [], updates => updates.reverse
  | (cs, picked) :: rest, updates =>
      let ns := cs + value
      if bound < ns then dpCollect orig idx value bound rest updates
      else if hasSum orig ns || hasSum updates ns then dpCollect orig idx value bound rest updates
      else dpCollect orig idx value bound rest ((ns, picked ++ [idx]) :: updates)

/-- The outer `for idx, value in enumerate(cents)` loop
(`reachable.update(updates)` appends the new sums in insertion order). -/
def dpFold (bound : ℤ) : List (ℤ × List ℕ) → ℕ → List ℤ → List (ℤ × List ℕ)
  | reachable, _, [] => reachable
  | reachable, idx, v :: rest =>
      let reachable' := if v ≤ 0 then reachable
        else reachable ++ dpCollect reachable idx v bound reachable []
      dpFold bound reachable' (idx + 1) rest

/-- `max(reachable.keys())`; `0` is always a key. -/
def keysMax (l : List (ℤ × List ℕ)) : ℤ := l.foldl (fun a p => max a p.1) 0

/-- `reachable[best_sum]`. -/
def findSum : List (ℤ × List ℕ) → ℤ → List ℕ
  | [], _ => []
  | (s, p) :: rest, t => if s = t then p else findSum rest t

def insertSorted (n : ℕ) : List ℕ → List ℕ
  | [] => [n]
  | m :: rest =>
      if n = m then m :: rest
      else if n < m then n :: m :: rest
      else m :: insertSorted n rest

/-- `sorted(set(picked))`. -/
def sortedDedup (l : List ℕ) : List ℕ := l.foldl (fun acc n => insertSorted n acc) []

/-- `int(round(x * 100))`. -/
def toCents (q : ℚ) : ℤ := pyRound (qmul q (mkRat 100 1))

/-- The integer-cent values of the items' line totals,
`[int(round(safe_float(line_total) * 100)) for i in items]`. -/
def itemCents (items : List NItem) : List ℤ := items.map (fun i => toCents i.line_total)

/-- `NormalizationRuleEngine._reconcile_line_items`.  (`i.get("line_total")`
is always present and numeric on the dictionaries the engine builds, so the
`_safe_float` there is the identity.) -/
def reconcile_line_items (rules : Rules) (items : List NItem) (target_total : ℚ) :
    List NItem :=
  if target_total ≤ 0 ∨ items.length ≤ 1 then items
  else
    let cents := itemCents items
    let target : ℤ := toCents target_total
    let total : ℤ := cents.sum
    let tol : ℤ := toCents rules.amount_tolerance
    if |total - target| ≤ tol then items
    else if total < target then items
    else
      let reachable := dpFold (target + tol) [(0, [])] 0 cents
      let best_sum := keysMax reachable
      if best_sum = 0 then items
      else
        let chosen := sortedDedup (findSum reachable best_sum)
        let reconciled := chosen.map (fun i => items.getD i default)
        if reconciled.isEmpty then items else reconciled

/-! ## `coerce_payload` -/

def optStr : Option String → JVal
  | none => .null
  | some s => .str s

/-- `NormalizationRuleEngine.coerce_payload`.  `today` stands for
`datetime.now(timezone.utc)`'s date (the only impure input). -/
def coerce_payload (rules : Rules) (today : PyDate) (raw : List (String × JVal)) :
    List (String × JVal) :=
  let ocr_text :=
    let v := (getKey raw "_ocr_text").getD (.str "")
    if pyFalsy v then "" else pyStr v
  let total := safeFloat (pick rules raw "total_amount" (.num 0)) 0
  let subtotal := safeFloat (pick rules raw "subtotal_amount" (.num total)) total
  let tax_amount := safeFloat (pick rules raw "tax_amount" (.num (max (qsub total subtotal) 0))) 0
  let confidence0 := safeFloat (pick rules raw "model_confidence" (.num rules.default_confidence))
    rules.default_confidence
  let confidence := max 0 (min confidence0 1)
  let invoice_date0 := normalize_date (pick rules raw "invoice_date" .null)
  let invoice_date1 := match invoice_date0 with
    | some d => some d
    | none => if ocr_text ≠ "" then extract_date_from_ocr ocr_text else none
  let invoice_date := match invoice_date1 with
    | some d => d
    | none => renderDate today
  let items0 := normalize_line_items rules (pick rules raw "line_items" (.arr [])) ocr_text
  let items1 := items0.filter (fun it => !(should_ignore_line_item rules it.description))
  let line_items := reconcile_line_items rules items1 (if 0 < subtotal then subtotal else total)
  let document_type0 :=
    pyLower (pyStr (pick rules raw "document_type" (.str rules.default_document_type)))
  let document_type :=
    if document_type0 = "invoice" ∨ document_type0 = "receipt" then document_type0 else "invoice"
  let currency0 := pyUpper (pyStr (pick rules raw "currency" (.str rules.default_currency)))
  let currency := if currency0.length = 3 then currency0 else rules.default_currency
  [("document_type", .str document_type),
   ("vendor_name", .str (normalize_vendor_name rules raw)),
   ("vendor_tax_id", pick rules raw "vendor_tax_id" .null),
   ("invoice_number", pick rules raw "invoice_number" .null),
   ("invoice_date", .str invoice_date),
   ("due_date", optStr (normalize_date (pick rules raw "due_date" .null))),
   ("currency", .str currency),
   ("subtotal", .num (max subtotal 0)),
   ("tax_amount", .num (max tax_amount 0)),
   ("total_amount", .num (max total 0)),
   ("payment_method", .str (normalize_payment_method rules (pick rules raw "payment_method" .null))),
   ("line_items", .arr (line_items.map NItem.toJVal)),
   ("model_confidence", .num confidence),
   ("validation_score", .num confidence)]

/-! ## Pipeline OCR line-item recovery (src/app/main.py,
`_extract_line_items_from_ocr_text`)

Same strict pattern without `\$?` in the money groups, and on a strict
miss the relaxed fallback `^(?P<desc>.+?)\s+(?P<total>\d[\d,]*(?:\.\d+)?)$`
with quantity 1 and the total as unit price. -/

/-- `\d[\d,]*(?:\.\d+)?` (no `\$?`, as in main.py's two patterns). -/
def readMoneyTokM (cs : List Char) : Option (List Char × List Char) :=
  match cs with
  | c :: rest =>
      if !c.isDigit then none
      else
        let body := rest.takeWhile (fun ch => ch.isDigit || ch = ',')
        let r1 := rest.drop body.length
        match r1 with
        | '.' :: t =>
            let fs := t.takeWhile Char.isDigit
            if fs = [] then some (c :: body, r1)
            else some (c :: body ++ '.' :: fs, t.drop fs.length)
        | _ => some (c :: body, r1)
  | [] => none

def matchStrictTailM (cs : List Char) : Option (List Char × List Char × List Char) :=
  (readWs cs).bind fun r1 =>
  (readNumTok r1).bind fun pq =>
  (readWs pq.2).bind fun r3 =>
  (readMoneyTokM r3).bind fun pu =>
  (readWs pu.2).bind fun r5 =>
  (readMoneyTokM r5).bind fun pt =>
  if pt.2 = [] then some (pq.1, pu.1, pt.1) else none

def strictMatchAuxM : Nat → List Char → List Char →
    Option (List Char × List Char × List Char × List Char)
  | 0, _, _ => none
  | _ + 1, _, [] => none
  | fuel + 1, descRev, c :: rest =>
      match matchStrictTailM rest with
      | some (q, u, t) => some ((c :: descRev).reverse, q, u, t)
      | none => strictMatchAuxM fuel (c :: descRev) rest

/-- main.py's strict four-group pattern on one stripped line. -/
def strictMatchM (compact : String) : Option (List Char × List Char × List Char × List Char) :=
  strictMatchAuxM (compact.length + 1) [] compact.data

def matchRelaxedTail (cs : List Char) : Option (List Char) :=
  (readWs cs).bind fun r1 =>
  (readMoneyTokM r1).bind fun pt =>
  if pt.2 = [] then some pt.1 else none

def relaxedMatchAux : Nat → List Char → List Char → Option (List Char × List Char)
  | 0, _, _ => none
  | _ + 1, _, [] => none
  | fuel + 1, descRev, c :: rest =>
      match matchRelaxedTail rest with
      | some t => some ((c :: descRev).reverse, t)
      | none => relaxedMatchAux fuel (c :: descRev) rest

/-- main.py's relaxed fallback `^(?P<desc>.+?)\s+(?P<total>\d[\d,]*(?:\.\d+)?)$`:
groups `(desc, total)`. -/
def relaxedMatch (compact : String) : Option (List Char × List Char) :=
  relaxedMatchAux (compact.length + 1) [] compact.data

/-- `main._safe_float` (plain `float()` attempt, no character stripping). -/
def mainSafeFloatStr (s : String) (dflt : ℚ) : ℚ :=
  match parseFloatQ (pyStrip s) with
  | some q => q
  | none => dflt

/-- `main._extract_line_items_from_ocr_text`, one line (after the
`len(compact) < 8` gate): strict first, relaxed on a strict miss. -/
def mainProcessLine (compact : String) : Option NItem :=
  match strictMatchM compact with
  | some (desc, q, u, t) =>
      let descS := pyStrip (String.mk desc)
      let qty := mainSafeFloatStr (String.mk q) 1
      let unit := mainSafeFloatStr (removeCommas (String.mk u)) 0
      let total := mainSafeFloatStr (removeCommas (String.mk t)) (qmul qty unit)
      if total ≤ 0 then none
      else some
        { description := descS, quantity := max qty (mkRat 1 10000),
          unit_price := max unit 0, line_total := max total 0, category := .null }
  | none =>
      match relaxedMatch compact with
      | none => none
      | some (desc, t) =>
          let descS := pyStrip (String.mk desc)
          let total := mainSafeFloatStr (removeCommas (String.mk t)) 0
          if total ≤ 0 then none
          else some
            { description := descS, quantity := 1, unit_price := total,
              line_total := total, category := .null }

/-- `main._extract_line_items_from_ocr_text`. -/
def mainExtractLineItems (text : String) : List NItem :=
  (pySplitlines text).filterMap (fun line =>
    let compact := pyStrip line
    if compact.length < 8 then none else mainProcessLine compact)

/-! ## C8: relaxed OCR fallback -/

/-- The relaxed-branch outcome of `main._extract_line_items_from_ocr_text`
for one line: quantity `1.0`, the matched total as unit price. -/
def relaxedOutcome (compact : String) : Option NItem :=
  match relaxedMatch compact with
  | none => none
  | some (desc, t) =>
      let descS := pyStrip (String.mk desc)
      let total := mainSafeFloatStr (removeCommas (String.mk t)) 0
      if total ≤ 0 then none
      else some
        { description := descS, quantity := 1, unit_price := total,
          line_total := total, category := .null }

/-- C8 counterexample.  The stripped OCR line `"Widget x 100"` (length ≥ 8)
misses the strict four-group pattern but matches the relaxed pattern with
total `100`; the claim then promises a recovered quantity-1 item, yet
`NormalizationRuleEngine._recover_line_items_from_ocr` has no relaxed
fallback and recovers nothing from this line. -/
theorem engine_recovery_has_no_relaxed_fallback :
    relaxedMatch "Widget x 100" = some ("Widget x".data, "100".data)
    ∧ strictMatch "Widget x 100" = none
    ∧ engineRecoverLine repoRules "Widget x 100" = none
    ∧ recover_line_items_from_ocr repoRules "Widget x 100" = [] :=
  ⟨rfl, rfl, rfl, rfl⟩

/-- C8 (amended).  The relaxed retry lives in the pipeline's own OCR
recovery (`main._extract_line_items_from_ocr_text`): a line that misses the
strict four-group pattern is retried against
`^(?P<desc>.+?)\s+(?P<total>\d[\d,]*(?:\.\d+)?)$`, and a relaxed match with
positive total yields an item with quantity `1.0` whose unit price equals
the matched total.  The `NormalizationRuleEngine`'s recovery applies only
the strict pattern. -/
theorem ocr_relaxed_fallback_in_pipeline (compact : String)
    (hmiss : strictMatchM compact = none) :
    mainProcessLine compact = relaxedOutcome compact
    ∧ (∀ desc t, relaxedMatch compact = some (desc, t) →
        0 < mainSafeFloatStr (removeCommas (String.mk t)) 0 →
        mainProcessLine compact = some
          { description := pyStrip (String.mk desc), quantity := 1,
            unit_price := mainSafeFloatStr (removeCommas (String.mk t)) 0,
            line_total := mainSafeFloatStr (removeCommas (String.mk t)) 0,
            category := .null })
    ∧ (∀ rules : Rules, ∀ line : String, (engineRecoverLine rules line).isSome = true →
        ∃ g, strictMatch (pyStrip line) = some g) := by
  refine ⟨?_, ?_, ?_⟩
  · simp only [mainProcessLine, hmiss, relaxedOutcome]
  · intro desc t hrel hpos
    simp only [mainProcessLine, hmiss, hrel, if_neg (not_le.2 hpos)]
  · intro rules line h
    simp only [engineRecoverLine] at h
    split at h
    · simp at h
    · revert h
      split
      · intro h; simp at h
      · intro _; exact ⟨_, by assumption⟩

/-- Witness for C8 (amended) at the line `"Widget x 100"`: the relaxed
fallback fires and builds the quantity-1 item with unit price 100. -/
theorem ocr_relaxed_fallback_in_pipeline_witness :
    mainProcessLine "Widget x 100" = relaxedOutcome "Widget x 100"
    ∧ mainProcessLine "Widget x 100" = some
        { description := pyStrip (String.mk "Widget x".data), quantity := 1,
          unit_price := mainSafeFloatStr (removeCommas (String.mk "100".data)) 0,
          line_total := mainSafeFloatStr (removeCommas (String.mk "100".data)) 0,
          category := .null } :=
  ⟨(ocr_relaxed_fallback_in_pipeline "Widget x 100" rfl).1,
   (ocr_relaxed_fallback_in_pipeline "Widget x 100" rfl).2.1 "Widget x".data "100".data rfl
     (by decide)⟩

/-! ## Reconciliation: sortedness, DP invariants -/

theorem insertSorted_mem (n : ℕ) (l : List ℕ) (a : ℕ) :
    a ∈ insertSorted n l ↔ a = n ∨ a ∈ l := by
  induction l with
  | nil => simp [insertSorted]
  | cons m rest ih =>
      simp only [insertSorted]
      split
      · subst m
        simp only [List.mem_cons]
        tauto
      · split
        · simp only [List.mem_cons]
        · simp only [List.mem_cons, ih]
          tauto

theorem insertSorted_pairwise (n : ℕ) (l : List ℕ) (h : l.Pairwise (· < ·)) :
    (insertSorted n l).Pairwise (· < ·) := by
  induction l with
  | nil => simp [insertSorted]
  | cons m rest ih =>
      obtain ⟨hm, hrest⟩ := List.pairwise_cons.1 h
      simp only [insertSorted]
      split
      · exact h
      · split
        · refine List.pairwise_cons.2 ⟨?_, h⟩
          intro b hb
          rcases List.mem_cons.1 hb with rfl | hb
          · omega
          · exact lt_trans (by omega) (hm b hb)
        · refine List.pairwise_cons.2 ⟨?_, ih hrest⟩
          intro b hb
          rcases (insertSorted_mem n rest b).1 hb with rfl | hb
          · omega
          · exact hm b hb

theorem sortedDedup_pairwise (l : List ℕ) : (sortedDedup l).Pairwise (· < ·) := by
  have h : ∀ acc : List ℕ, acc.Pairwise (· < ·) →
      (l.foldl (fun acc n => insertSorted n acc) acc).Pairwise (· < ·) := by
    induction l with
    | nil => intro acc hacc; exact hacc
    | cons n rest ih =>
        intro acc hacc
        exact ih _ (insertSorted_pairwise n acc hacc)
  exact h [] (List.Pairwise.nil)

theorem insertSorted_big (n : ℕ) (acc : List ℕ) (h : ∀ a ∈ acc, a < n) :
    insertSorted n acc = acc ++ [n] := by
  induction acc with
  | nil => rfl
  | cons m rest ih =>
      have hm := h m (List.mem_cons_self _ _)
      simp only [insertSorted, if_neg (by omega : ¬n = m), if_neg (by omega : ¬n < m)]
      rw [ih (fun a ha => h a (List.mem_cons_of_mem _ ha))]
      rfl

theorem sortedDedup_eq_self (l : List ℕ) (h : l.Pairwise (· < ·)) : sortedDedup l = l := by
  have key : ∀ l acc : List ℕ, l.Pairwise (· < ·) → (∀ a ∈ acc, ∀ b ∈ l, a < b) →
      l.foldl (fun acc n => insertSorted n acc) acc = acc ++ l := by
    intro l
    induction l with
    | nil => intro acc _ _; simp
    | cons b rest ih =>
        intro acc hpw hcross
        obtain ⟨hb, hrest⟩ := List.pairwise_cons.1 hpw
        have h1 : insertSorted b acc = acc ++ [b] :=
          insertSorted_big b acc (fun a ha => hcross a ha b (List.mem_cons_self _ _))
        simp only [List.foldl_cons, h1]
        rw [ih (acc ++ [b]) hrest ?_]
        · simp
        · intro a ha c hc
          rcases List.mem_append.1 ha with ha | ha
          · exact hcross a ha c (List.mem_cons_of_mem _ hc)
          · simp only [List.mem_singleton] at ha
            subst ha
            exact hb c hc
  exact key l [] h (by simp)

theorem mapGetD_sublist (items : List NItem) :
    ∀ idxs : List ℕ, idxs.Pairwise (· < ·) → (∀ i ∈ idxs, i < items.length) →
    (idxs.map (fun i => items.getD i default)).Sublist items := by
  induction items with
  | nil =>
      intro idxs _ hb
      cases idxs with
      | nil => simp
      | cons i rest => exact absurd (hb i (List.mem_cons_self _ _)) (by simp)
  | cons a tl ih =>
      intro idxs hp hb
      cases idxs with
      | nil => simp
      | cons i rest =>
          obtain ⟨hi, hrest⟩ := List.pairwise_cons.1 hp
          rcases Nat.eq_zero_or_pos i with rfl | hipos
          · have hpos : ∀ j ∈ rest, 0 < j := fun j hj => hi j hj
            have hmap : rest.map (fun j => (a :: tl).getD j default) =
                (rest.map (fun j => j - 1)).map (fun j => tl.getD j default) := by
              rw [List.map_map]
              refine List.map_congr_left ?_
              intro j hj
              have hj0 := hpos j hj
              cases j with
              | zero => omega
              | succ k => simp [List.getD_cons_succ]
            simp only [List.map_cons, List.getD_cons_zero, hmap]
            refine List.Sublist.cons₂ a (ih _ ?_ ?_)
            · refine List.pairwise_map.2 (List.Pairwise.imp_of_mem ?_ hrest)
              intro x y hx _ hxy
              have := hpos x hx
              omega
            · intro j hj
              rcases List.mem_map.1 hj with ⟨k, hk, rfl⟩
              have h1 := hb k (List.mem_cons_of_mem _ hk)
              have h2 := hpos k hk
              simp only [List.length_cons] at h1 ⊢
              omega
          · have hpos : ∀ j ∈ i :: rest, 0 < j := by
              intro j hj
              rcases List.mem_cons.1 hj with rfl | hj
              · exact hipos
              · exact lt_trans hipos (hi j hj)
            have hmap : (i :: rest).map (fun j => (a :: tl).getD j default) =
                ((i :: rest).map (fun j => j - 1)).map (fun j => tl.getD j default) := by
              rw [List.map_map]
              refine List.map_congr_left ?_
              intro j hj
              have hj0 := hpos j hj
              cases j with
              | zero => omega
              | succ k => simp [List.getD_cons_succ]
            rw [hmap]
            refine List.Sublist.cons a (ih _ ?_ ?_)
            · refine List.pairwise_map.2 (List.Pairwise.imp_of_mem ?_ hp)
              intro x y hx _ hxy
              have := hpos x hx
              omega
            · intro j hj
              rcases List.mem_map.1 hj with ⟨k, hk, rfl⟩
              have h1 := hb k hk
              have h2 := hpos k hk
              simp only [List.length_cons] at h1 ⊢
              omega

/-- Invariant of the `reachable` dictionary entries after the first `n`
items have been processed: picked indices strictly increasing and `< n`,
the key is the picked cent-sum, and every key other than the seed `0` is
within the bound. -/
def dpGood (cents : List ℤ) (bound : ℤ) (n : ℕ) (e : ℤ × List ℕ) : Prop :=
  e.2.Pairwise (· < ·) ∧ (∀ i ∈ e.2, i < n) ∧
  e.1 = (e.2.map (fun i => cents.getD i 0)).sum ∧ (e.1 = 0 ∨ e.1 ≤ bound)

theorem dpGood_mono (cents : List ℤ) (bound : ℤ) (n m : ℕ) (h : n ≤ m) (e : ℤ × List ℕ) :
    dpGood cents bound n e → dpGood cents bound m e := by
  rintro ⟨h1, h2, h3, h4⟩
  exact ⟨h1, fun i hi => lt_of_lt_of_le (h2 i hi) h, h3, h4⟩

theorem dpCollect_good (cents : List ℤ) (bound : ℤ) (orig : List (ℤ × List ℕ)) (idx : ℕ)
    (value : ℤ) (hv : value = cents.getD idx 0) :
    ∀ todo updates : List (ℤ × List ℕ),
      (∀ e ∈ todo, dpGood cents bound idx e) →
      (∀ e ∈ updates, dpGood cents bound (idx + 1) e) →
      ∀ e ∈ dpCollect orig idx value bound todo updates, dpGood cents bound (idx + 1) e := by
  intro todo
  induction todo with
  | nil =>
      intro updates _ hupd e he
      simp only [dpCollect] at he
      exact hupd e (by simpa using he)
  | cons p rest ih =>
      intro updates htodo hupd e he
      obtain ⟨cs, picked⟩ := p
      have hhead := htodo (cs, picked) (List.mem_cons_self _ _)
      obtain ⟨hpw, hlt, hsum, _⟩ := hhead
      have htail := fun x hx => htodo x (List.mem_cons_of_mem _ hx)
      simp only [dpCollect] at he
      split at he
      · exact ih updates htail hupd e he
      · split at he
        · exact ih updates htail hupd e he
        · refine ih ((cs + value, picked ++ [idx]) :: updates) htail ?_ e he
          intro x hx
          rcases List.mem_cons.1 hx with rfl | hx
          · refine ⟨?_, ?_, ?_, ?_⟩
            · rw [List.pairwise_append]
              exact ⟨hpw, List.pairwise_singleton _ _,
                fun a ha b hb => by simp only [List.mem_singleton] at hb; subst hb; exact hlt a ha⟩
            · intro i hi
              rcases List.mem_append.1 hi with hi | hi
              · exact lt_trans (hlt i hi) (Nat.lt_succ_self idx)
              · simp only [List.mem_singleton] at hi; omega
            · simp only [List.map_append, List.sum_append, List.map_cons, List.map_nil,
                List.sum_cons, List.sum_nil, add_zero]
              rw [← hsum, ← hv]
            · right
              simp only at *
              omega
          · exact hupd x hx

theorem dpFold_good (bound : ℤ) (cents : List ℤ) :
    ∀ (tail : List ℤ) (idx : ℕ),
      (∀ k, tail.getD k 0 = cents.getD (idx + k) 0) →
      ∀ reachable : List (ℤ × List ℕ),
        (∀ e ∈ reachable, dpGood cents bound idx e) →
        ∀ e ∈ dpFold bound reachable idx tail, dpGood cents bound (idx + tail.length) e := by
  intro tail
  induction tail with
  | nil =>
      intro idx _ reachable hreach e he
      simp only [dpFold] at he
      simpa using hreach e he
  | cons v rest ih =>
      intro idx htail reachable hreach e he
      simp only [dpFold] at he
      have hv : v = cents.getD idx 0 := by simpa using htail 0
      have hreach' : ∀ x ∈ (if v ≤ 0 then reachable
          else reachable ++ dpCollect reachable idx v bound reachable []),
          dpGood cents bound (idx + 1) x := by
        split
        · exact fun x hx => dpGood_mono _ _ _ _ (Nat.le_succ idx) x (hreach x hx)
        · intro x hx
          rcases List.mem_append.1 hx with hx | hx
          · exact dpGood_mono _ _ _ _ (Nat.le_succ idx) x (hreach x hx)
          · exact dpCollect_good cents bound reachable idx v hv reachable [] hreach
              (by simp) x hx
      have htail' : ∀ k, rest.getD k 0 = cents.getD (idx + 1 + k) 0 := by
        intro k
        have h := htail (k + 1)
        rw [List.getD_cons_succ] at h
        rw [h]
        congr 1
        omega
      have hres := ih (idx + 1) htail' _ hreach' e he
      refine dpGood_mono _ _ _ _ ?_ e hres
      simp only [List.length_cons]
      omega

theorem hasSum_eq_false_iff (l : List (ℤ × List ℕ)) (s : ℤ) :
    hasSum l s = false ↔ s ∉ l.map Prod.fst := by
  rw [hasSum, List.any_eq_false]
  constructor
  · intro h hs
    rcases List.mem_map.1 hs with ⟨p, hp, rfl⟩
    have hp2 := h p hp
    simp at hp2
  · intro h p hp
    simp only [beq_iff_eq]
    exact fun he => h (List.mem_map.2 ⟨p, hp, he⟩)

theorem dpCollect_keys (orig : List (ℤ × List ℕ)) (idx : ℕ) (value bound : ℤ) :
    ∀ todo updates : List (ℤ × List ℕ),
      (List.map Prod.fst updates).Nodup →
      (∀ s ∈ List.map Prod.fst updates, hasSum orig s = false) →
      (List.map Prod.fst (dpCollect orig idx value bound todo updates)).Nodup ∧
      ∀ s ∈ List.map Prod.fst (dpCollect orig idx value bound todo updates),
        hasSum orig s = false := by
  intro todo
  induction todo with
  | nil =>
      intro updates hnd hdis
      simp only [dpCollect, List.map_reverse, List.nodup_reverse, List.mem_reverse]
      exact ⟨hnd, hdis⟩
  | cons p rest ih =>
      intro updates hnd hdis
      obtain ⟨cs, picked⟩ := p
      simp only [dpCollect]
      split
      · exact ih updates hnd hdis
      · rename_i hbnd
        split
        · exact ih updates hnd hdis
        · rename_i hguard
          have hor : hasSum orig (cs + value) = false ∧ hasSum updates (cs + value) = false := by
            constructor <;>
              · revert hguard
                cases hasSum orig (cs + value) <;> cases hasSum updates (cs + value) <;> simp
          refine ih ((cs + value, picked ++ [idx]) :: updates) ?_ ?_
          · simp only [List.map_cons, List.nodup_cons]
            exact ⟨(hasSum_eq_false_iff updates (cs + value)).1 hor.2, hnd⟩
          · intro s hs
            simp only [List.map_cons, List.mem_cons] at hs
            rcases hs with rfl | hs
            · exact hor.1
            · exact hdis s hs

theorem dpFold_keysNodup (bound : ℤ) :
    ∀ (tail : List ℤ) (idx : ℕ) (reachable : List (ℤ × List ℕ)),
      (List.map Prod.fst reachable).Nodup →
      (List.map Prod.fst (dpFold bound reachable idx tail)).Nodup := by
  intro tail
  induction tail with
  | nil => intro idx reachable h; simpa [dpFold] using h
  | cons v rest ih =>
      intro idx reachable h
      simp only [dpFold]
      refine ih (idx + 1) _ ?_
      split
      · exact h
      · have hc := dpCollect_keys reachable idx v bound reachable [] (by simp) (by simp)
        simp only [List.map_append, List.nodup_append]
        refine ⟨h, hc.1, ?_⟩
        intro s hs
        have := hc.2
        intro hs'
        have hfalse := this s hs'
        rw [hasSum_eq_false_iff] at hfalse
        exact hfalse hs

theorem le_keysMax (l : List (ℤ × List ℕ)) : 0 ≤ keysMax l ∧ ∀ e ∈ l, e.1 ≤ keysMax l := by
  have key : ∀ (l : List (ℤ × List ℕ)) (a : ℤ), a ≤ l.foldl (fun a p => max a p.1) a ∧
      ∀ e ∈ l, e.1 ≤ l.foldl (fun a p => max a p.1) a := by
    intro l
    induction l with
    | nil => intro a; exact ⟨le_refl a, by simp⟩
    | cons p rest ih =>
        intro a
        obtain ⟨h1, h2⟩ := ih (max a p.1)
        refine ⟨le_trans (le_max_left a p.1) h1, ?_⟩
        intro e he
        rcases List.mem_cons.1 he with rfl | he
        · exact le_trans (le_max_right a e.1) h1
        · exact h2 e he
  exact ⟨(key l 0).1, (key l 0).2⟩

theorem keysMax_mem (l : List (ℤ × List ℕ)) :
    keysMax l = 0 ∨ ∃ p ∈ l, p.1 = keysMax l := by
  have key : ∀ (l : List (ℤ × List ℕ)) (a : ℤ), l.foldl (fun a p => max a p.1) a = a ∨
      ∃ p ∈ l, p.1 = l.foldl (fun a p => max a p.1) a := by
    intro l
    induction l with
    | nil => intro a; exact Or.inl rfl
    | cons p rest ih =>
        intro a
        rcases ih (max a p.1) with h | ⟨q, hq, hqe⟩
        · rw [List.foldl_cons, h]
          rcases max_choice a p.1 with hm | hm
          · exact Or.inl hm
          · exact Or.inr ⟨p, List.mem_cons_self _ _, hm.symm⟩
        · exact Or.inr ⟨q, List.mem_cons_of_mem _ hq, by rw [List.foldl_cons]; exact hqe⟩
  exact key l 0

theorem findSum_mem (l : List (ℤ × List ℕ)) (s : ℤ) (h : ∃ p ∈ l, p.1 = s) :
    (s, findSum l s) ∈ l := by
  induction l with
  | nil => simp at h
  | cons p rest ih =>
      obtain ⟨cs, picked⟩ := p
      simp only [findSum]
      split
      · rename_i heq
        subst heq
        exact List.mem_cons_self _ _
      · rename_i hne
        refine List.mem_cons_of_mem _ (ih ?_)
        rcases h with ⟨q, hq, hqe⟩
        rcases List.mem_cons.1 hq with rfl | hq
        · exact absurd hqe (by simpa using hne)
        · exact ⟨q, hq, hqe⟩

/-- The reachable dictionary built by `_reconcile_line_items`. -/
def dpReach (rules : Rules) (items : List NItem) (target : ℚ) : List (ℤ × List ℕ) :=
  dpFold (toCents target + toCents rules.amount_tolerance) [(0, [])] 0 (itemCents items)

theorem dpReach_good (rules : Rules) (items : List NItem) (target : ℚ) :
    ∀ e ∈ dpReach rules items target,
      dpGood (itemCents items) (toCents target + toCents rules.amount_tolerance)
        (itemCents items).length e := by
  intro e he
  have h := dpFold_good (toCents target + toCents rules.amount_tolerance) (itemCents items)
    (itemCents items) 0 (fun k => by simp) [(0, [])] ?_ e he
  · simpa using h
  · intro x hx
    simp only [List.mem_singleton] at hx
    subst hx
    exact ⟨List.Pairwise.nil, by simp, by simp, Or.inl rfl⟩

theorem itemCents_getD (items : List NItem) (i : ℕ) (h : i < items.length) :
    (itemCents items).getD i 0 = toCents (items.getD i default).line_total := by
  rw [itemCents, List.getD_eq_getElem _ _ (by simpa using h), List.getD_eq_getElem _ _ h,
    List.getElem_map]

/-- Either `_reconcile_line_items` returns the items unchanged, or it is in
the dynamic-programming branch and returns the picked subset of the
best-reachable sum. -/
theorem reconcile_cases (rules : Rules) (items : List NItem) (target : ℚ) :
    reconcile_line_items rules items target = items ∨
    (¬(target ≤ 0 ∨ items.length ≤ 1) ∧
     ¬(|(itemCents items).sum - toCents target| ≤ toCents rules.amount_tolerance) ∧
     ¬((itemCents items).sum < toCents target) ∧
     keysMax (dpReach rules items target) ≠ 0 ∧
     ∃ picked : List ℕ,
       (keysMax (dpReach rules items target), picked) ∈ dpReach rules items target ∧
       picked ≠ [] ∧ picked.Pairwise (· < ·) ∧ (∀ i ∈ picked, i < items.length) ∧
       reconcile_line_items rules items target =
         picked.map (fun i => items.getD i default)) := by
  simp only [reconcile_line_items]
  split
  · exact Or.inl rfl
  · rename_i hgate
    split
    · exact Or.inl rfl
    · rename_i htol
      split
      · exact Or.inl rfl
      · rename_i hbelow
        rw [show dpFold (toCents target + toCents rules.amount_tolerance) [(0, [])] 0
          (itemCents items) = dpReach rules items target from rfl]
        split
        · exact Or.inl rfl
        · rename_i hbest
          have hmem : (keysMax (dpReach rules items target),
              findSum (dpReach rules items target) (keysMax (dpReach rules items target))) ∈
              dpReach rules items target := by
            refine findSum_mem _ _ ?_
            rcases keysMax_mem (dpReach rules items target) with h | h
            · exact absurd h hbest
            · exact h
          have hgood := dpReach_good rules items target _ hmem
          obtain ⟨hpw, hbnd, hsum, _⟩ := hgood
          have hchosen : sortedDedup (findSum (dpReach rules items target)
              (keysMax (dpReach rules items target))) =
              findSum (dpReach rules items target) (keysMax (dpReach rules items target)) :=
            sortedDedup_eq_self _ hpw
          rw [hchosen]
          split
          · exact Or.inl rfl
          · rename_i hne
            refine Or.inr ⟨hgate, htol, hbelow, hbest,
              findSum (dpReach rules items target) (keysMax (dpReach rules items target)),
              hmem, ?_, hpw, ?_, rfl⟩
            · intro hnil
              rw [hnil] at hne
              simp at hne
            · intro i hi
              have := hbnd i hi
              simpa [itemCents] using this

/-- `_reconcile_line_items` always returns a sublist of its input (the
picked items in original index order). -/
theorem reconcile_sublist (rules : Rules) (items : List NItem) (target : ℚ) :
    (reconcile_line_items rules items target).Sublist items := by
  rcases reconcile_cases rules items target with h | ⟨_, _, _, _, picked, _, _, hpw, hbnd, heq⟩
  · rw [h]
  · rw [heq]
    exact mapGetD_sublist items picked hpw hbnd

/-- In the DP branch the reconciled list's cent-sum is the best reachable
sum. -/
theorem reconcile_dp_sum (rules : Rules) (items : List NItem) (target : ℚ)
    (picked : List ℕ)
    (hmem : (keysMax (dpReach rules items target), picked) ∈ dpReach rules items target)
    (hbnd : ∀ i ∈ picked, i < items.length) :
    ((picked.map (fun i => items.getD i default)).map (fun i => toCents i.line_total)).sum =
      keysMax (dpReach rules items target) := by
  have hgood := dpReach_good rules items target _ hmem
  obtain ⟨_, _, hsum, _⟩ := hgood
  rw [List.map_map]
  have : (picked.map (fun i => toCents (items.getD i default).line_total)).sum =
      (picked.map (fun i => (itemCents items).getD i 0)).sum := by
    congr 1
    refine List.map_congr_left ?_
    intro i hi
    rw [itemCents_getD items i (hbnd i hi)]
  rw [show ((fun i => toCents i.line_total) ∘ fun i => items.getD i default) =
    (fun i => toCents (items.getD i default).line_total) from rfl, this]
  exact hsum.symm

/-- In the DP branch (gate, tolerance, shortfall and zero-best all
excluded), the result is the picked subset of the best reachable sum. -/
theorem reconcile_dp_eq (rules : Rules) (items : List NItem) (target : ℚ)
    (hgate : ¬(target ≤ 0 ∨ items.length ≤ 1))
    (htol : ¬(|(itemCents items).sum - toCents target| ≤ toCents rules.amount_tolerance))
    (hbelow : ¬((itemCents items).sum < toCents target))
    (hbest : keysMax (dpReach rules items target) ≠ 0) :
    ∃ picked : List ℕ,
      (keysMax (dpReach rules items target), picked) ∈ dpReach rules items target ∧
      picked ≠ [] ∧ picked.Pairwise (· < ·) ∧ (∀ i ∈ picked, i < items.length) ∧
      reconcile_line_items rules items target =
        picked.map (fun i => items.getD i default) := by
  have hmem : (keysMax (dpReach rules items target),
      findSum (dpReach rules items target) (keysMax (dpReach rules items target))) ∈
      dpReach rules items target := by
    refine findSum_mem _ _ ?_
    rcases keysMax_mem (dpReach rules items target) with h | h
    · exact absurd h hbest
    · exact h
  have hgood := dpReach_good rules items target _ hmem
  obtain ⟨hpw, hbnd, hsum, _⟩ := hgood
  have hnonnil : findSum (dpReach rules items target) (keysMax (dpReach rules items target)) ≠
      [] := by
    intro hnil
    rw [hnil] at hsum
    simp at hsum
    exact hbest hsum
  refine ⟨findSum (dpReach rules items target) (keysMax (dpReach rules items target)),
    hmem, hnonnil, hpw, ?_, ?_⟩
  · intro i hi
    have := hbnd i hi
    simpa [itemCents] using this
  · simp only [reconcile_line_items, if_neg hgate, if_neg htol, if_neg hbelow]
    rw [show dpFold (toCents target + toCents rules.amount_tolerance) [(0, [])] 0
      (itemCents items) = dpReach rules items target from rfl]
    rw [if_neg hbest, sortedDedup_eq_self _ hpw]
    rw [if_neg ?_]
    simp only [List.isEmpty_eq_true, List.map_eq_nil_iff]
    exact hnonnil

/-- C6.  Subset-sum reconciliation on more than one item with a positive
target: a within-tolerance or short cent-sum leaves the list unchanged, as
does a best reachable sum of zero; the reachable dictionary holds exact
picked-subset sums bounded by `target + tolerance`, each sum at most once
(the first subset found at a sum wins); the result is always a sublist of
the input (original index order), and in the DP branch its cent-sum is the
largest reachable sum.  Items `[100, 40, 60]` with subtotal `100` and
tolerance `0.01` reconcile to exactly the single 100-valued item. -/
theorem reconcile_line_items_props (rules : Rules) (items : List NItem) (target : ℚ)
    (hlen : 1 < items.length) (htgt : 0 < target) :
    ((|(itemCents items).sum - toCents target| ≤ toCents rules.amount_tolerance →
        reconcile_line_items rules items target = items)
      ∧ ((itemCents items).sum < toCents target →
        reconcile_line_items rules items target = items)
      ∧ (keysMax (dpReach rules items target) = 0 →
        reconcile_line_items rules items target = items))
    ∧ ((∀ e ∈ dpReach rules items target,
          e.2.Pairwise (· < ·) ∧
          e.1 = (e.2.map (fun i => (itemCents items).getD i 0)).sum ∧
          (e.1 = 0 ∨ e.1 ≤ toCents target + toCents rules.amount_tolerance))
      ∧ (List.map Prod.fst (dpReach rules items target)).Nodup)
    ∧ ((reconcile_line_items rules items target).Sublist items
      ∧ (¬(|(itemCents items).sum - toCents target| ≤ toCents rules.amount_tolerance) →
        ¬((itemCents items).sum < toCents target) →
        keysMax (dpReach rules items target) ≠ 0 →
        (itemCents (reconcile_line_items rules items target)).sum =
          keysMax (dpReach rules items target)))
    ∧ reconcile_line_items repoRules
        [⟨"a", 1, 100, 100, .null⟩, ⟨"b", 1, 40, 40, .null⟩, ⟨"c", 1, 60, 60, .null⟩] 100 =
        [⟨"a", 1, 100, 100, .null⟩] := by
  have hgate : ¬(target ≤ 0 ∨ items.length ≤ 1) := by
    push_neg
    exact ⟨htgt, hlen⟩
  refine ⟨⟨?_, ?_, ?_⟩, ⟨?_, ?_⟩, ⟨reconcile_sublist rules items target, ?_⟩, ?_⟩
  · intro h
    simp only [reconcile_line_items, if_neg hgate, if_pos h]
  · intro h
    simp only [reconcile_line_items, if_neg hgate]
    split <;> rfl
  · intro h
    simp only [reconcile_line_items, if_neg hgate]
    split
    · rfl
    · split
      · rfl
      · rw [show dpFold (toCents target + toCents rules.amount_tolerance) [(0, [])] 0
          (itemCents items) = dpReach rules items target from rfl]
        rw [if_pos h]
  · intro e he
    obtain ⟨h1, _, h3, h4⟩ := dpReach_good rules items target e he
    exact ⟨h1, h3, h4⟩
  · exact dpFold_keysNodup _ (itemCents items) 0 [(0, [])] (by simp)
  · intro htol hbelow hbest
    obtain ⟨picked, hmem, _, _, hbnd, heq⟩ :=
      reconcile_dp_eq rules items target hgate htol hbelow hbest
    rw [heq]
    exact reconcile_dp_sum rules items target picked hmem hbnd
  · rfl

/-- Witness for C6: the concrete [100, 40, 60] / subtotal 100 instance. -/
theorem reconcile_line_items_props_witness :
    reconcile_line_items repoRules
        [⟨"a", 1, 100, 100, .null⟩, ⟨"b", 1, 40, 40, .null⟩, ⟨"c", 1, 60, 60, .null⟩] 100 =
      [⟨"a", 1, 100, 100, .null⟩] :=
  (reconcile_line_items_props repoRules
    [⟨"a", 1, 100, 100, .null⟩, ⟨"b", 1, 40, 40, .null⟩, ⟨"c", 1, 60, 60, .null⟩] 100
    (by decide) (by decide)).2.2.2

/-- Reconciliation is a closure: re-reconciling its own output with the
same target changes nothing (the basis of normalization idempotence). -/
theorem reconcile_fixpoint (rules : Rules) (items : List NItem) (target : ℚ) :
    reconcile_line_items rules (reconcile_line_items rules items target) target =
      reconcile_line_items rules items target := by
  rcases reconcile_cases rules items target with h |
    ⟨hgate, htol, hbelow, hbest, picked, hmem, hne, hpw, hbnd, heq⟩
  · simp only [h]
  · have hgood := dpReach_good rules items target _ hmem
    obtain ⟨_, _, _, hor⟩ := hgood
    have hle : keysMax (dpReach rules items target) ≤
        toCents target + toCents rules.amount_tolerance := by
      rcases hor with h0 | h0
      · exact absurd h0 hbest
      · exact h0
    have hsum : (itemCents (reconcile_line_items rules items target)).sum =
        keysMax (dpReach rules items target) := by
      rw [heq]
      exact reconcile_dp_sum rules items target picked hmem
        (fun i hi => by simpa [itemCents] using (dpReach_good rules items target _ hmem).2.1 i hi)
    rw [heq] at hsum ⊢
    simp only [reconcile_line_items]
    split
    · rfl
    · rw [show itemCents (List.map (fun i => items.getD i default) picked) =
        itemCents (picked.map (fun i => items.getD i default)) from rfl, hsum]
      split
      · rfl
      · rename_i hw
        rw [if_pos ?_]
        have habs : ¬(-(toCents rules.amount_tolerance) ≤
            keysMax (dpReach rules items target) - toCents target ∧
            keysMax (dpReach rules items target) - toCents target ≤
              toCents rules.amount_tolerance) := by
          intro hc
          exact hw (abs_le.2 hc)
        push_neg at habs
        omega

/-! ## Character and string lemmas (for the idempotence and invariant
claims about `coerce_payload`) -/

theorem char_toNat_ofNat (n : ℕ) (h : n < 55296) : (Char.ofNat n).toNat = n := by
  have hv : n.isValidChar := Or.inl h
  unfold Char.ofNat
  rw [dif_pos hv]
  rfl

theorem digitChar_cases (n : ℕ) :
    n % 10 = 0 ∨ n % 10 = 1 ∨ n % 10 = 2 ∨ n % 10 = 3 ∨ n % 10 = 4 ∨ n % 10 = 5 ∨
      n % 10 = 6 ∨ n % 10 = 7 ∨ n % 10 = 8 ∨ n % 10 = 9 := by
  omega

theorem digitChar_isDigit (n : ℕ) : (digitChar n).isDigit = true := by
  unfold digitChar
  rcases digitChar_cases n with h | h | h | h | h | h | h | h | h | h <;> rw [h] <;> decide

theorem digitChar_toNat (n : ℕ) : (digitChar n).toNat = 48 + n % 10 := by
  unfold digitChar
  rcases digitChar_cases n with h | h | h | h | h | h | h | h | h | h <;> rw [h] <;> decide

theorem pyIsSpace_digitChar (n : ℕ) : pyIsSpace (digitChar n) = false := by
  unfold digitChar
  rcases digitChar_cases n with h | h | h | h | h | h | h | h | h | h <;> rw [h] <;> decide

theorem toUpper_toUpper (c : Char) : (Char.toUpper c).toUpper = Char.toUpper c := by
  by_cases h : c.toNat ≥ 97 ∧ c.toNat ≤ 122
  · have h1 : Char.toUpper c = Char.ofNat (c.toNat - 32) := by
      simp only [Char.toUpper]
      rw [if_pos h]
    have ht : (Char.ofNat (c.toNat - 32)).toNat = c.toNat - 32 :=
      char_toNat_ofNat _ (by omega)
    have hcond : ¬((Char.ofNat (c.toNat - 32)).toNat ≥ 97 ∧
        (Char.ofNat (c.toNat - 32)).toNat ≤ 122) := by
      rw [ht]
      omega
    rw [h1]
    simp only [Char.toUpper]
    rw [if_neg hcond]
  · have h1 : Char.toUpper c = c := by
      simp only [Char.toUpper]
      rw [if_neg h]
    rw [h1, h1]

theorem map_idem (f : Char → Char) (hf : ∀ c, f (f c) = f c) (l : List Char) :
    (l.map f).map f = l.map f := by
  induction l with
  | nil => rfl
  | cons c rest ih => simp only [List.map_cons, hf, ih]

theorem pyUpper_idem (s : String) : pyUpper (pyUpper s) = pyUpper s :=
  congrArg String.mk (map_idem Char.toUpper toUpper_toUpper s.data)

theorem pyUpper_length (s : String) : (pyUpper s).length = s.length := by
  show (s.data.map Char.toUpper).length = s.data.length
  exact List.length_map _ _

theorem pyStrip_as_rdropWhile (s : String) :
    pyStrip s = String.mk (List.rdropWhile pyIsSpace (s.data.dropWhile pyIsSpace)) := rfl

theorem dropWhile_rdropWhile (p : Char → Bool) (l : List Char) :
    List.dropWhile p (List.rdropWhile p (l.dropWhile p)) =
      List.rdropWhile p (l.dropWhile p) := by
  rw [List.dropWhile_eq_self_iff]
  intro hl
  have hpre := List.rdropWhile_prefix p (l.dropWhile p)
  have hdw : List.dropWhile p (l.dropWhile p) = l.dropWhile p :=
    List.dropWhile_idempotent p l
  have hhead := (List.dropWhile_eq_self_iff.mp hdw)
    (lt_of_lt_of_le hl hpre.length_le)
  have hget := hpre.getElem hl
  simpa [← hget] using hhead

theorem pyStrip_idem (s : String) : pyStrip (pyStrip s) = pyStrip s := by
  rw [pyStrip_as_rdropWhile s, pyStrip_as_rdropWhile]
  show String.mk (List.rdropWhile pyIsSpace
      ((List.rdropWhile pyIsSpace (s.data.dropWhile pyIsSpace)).dropWhile pyIsSpace)) = _
  rw [dropWhile_rdropWhile, List.rdropWhile_idempotent]

theorem should_ignore_empty (rules : Rules) : should_ignore_line_item rules "" = true := rfl

theorem should_ignore_false_ne (rules : Rules) (d : String)
    (h : should_ignore_line_item rules d = false) : d ≠ "" := by
  intro he
  rw [he, should_ignore_empty] at h
  cases h

/-! ## Date rendering and parsing lemmas -/

theorem dashNotDigit : Char.isDigit '-' = false := by decide

theorem digitsVal_pad2 (n : ℕ) (h : n < 100) :
    digitsVal [digitChar (n / 10), digitChar n] = n := by
  simp only [digitsVal, List.foldl, digitChar_toNat]
  omega

theorem digitsVal_pad4 (n : ℕ) (h : n < 10000) :
    digitsVal [digitChar (n / 1000), digitChar (n / 100), digitChar (n / 10),
      digitChar n] = n := by
  simp only [digitsVal, List.foldl, digitChar_toNat]
  omega

theorem renderDate_mk (dt : PyDate) :
    renderDate dt = String.mk [digitChar (dt.y / 1000), digitChar (dt.y / 100),
      digitChar (dt.y / 10), digitChar dt.y, '-', digitChar (dt.m / 10), digitChar dt.m,
      '-', digitChar (dt.d / 10), digitChar dt.d] := rfl

theorem strip_no_space (l : List Char) (h : ∀ c ∈ l, pyIsSpace c = false) :
    pyStrip (String.mk l) = String.mk l := by
  have h1 : l.dropWhile pyIsSpace = l :=
    List.dropWhile_eq_self_iff.mpr fun hl hc => by
      have hx := h _ (List.get_mem l 0 hl)
      exact absurd (hx.symm.trans hc) (by decide)
  have h2 : l.reverse.dropWhile pyIsSpace = l.reverse :=
    List.dropWhile_eq_self_iff.mpr fun hl hc => by
      have hm : l.reverse.get ⟨0, hl⟩ ∈ l :=
        List.mem_reverse.mp (List.get_mem l.reverse 0 hl)
      have hx := h _ hm
      exact absurd (hx.symm.trans hc) (by decide)
  show String.mk (((l.dropWhile pyIsSpace).reverse.dropWhile pyIsSpace).reverse) = _
  rw [h1, h2, List.reverse_reverse]

theorem renderDate_chars (dt : PyDate) :
    ∀ c ∈ [digitChar (dt.y / 1000), digitChar (dt.y / 100), digitChar (dt.y / 10),
      digitChar dt.y, '-', digitChar (dt.m / 10), digitChar dt.m, '-',
      digitChar (dt.d / 10), digitChar dt.d], pyIsSpace c = false := by
  intro c hc
  simp only [List.mem_cons, List.not_mem_nil, or_false] at hc
  rcases hc with rfl | rfl | rfl | rfl | rfl | rfl | rfl | rfl | rfl | rfl <;>
    first
    | exact pyIsSpace_digitChar _
    | decide

theorem pyStrip_renderDate (dt : PyDate) : pyStrip (renderDate dt) = renderDate dt := by
  rw [renderDate_mk]
  exact strip_no_space _ (renderDate_chars dt)

theorem renderDate_ne_empty (dt : PyDate) : renderDate dt ≠ "" := by
  intro h
  rw [renderDate_mk] at h
  have := congrArg String.data h
  cases this

theorem daysInMonth_le (y m : ℕ) : daysInMonth y m ≤ 31 := by
  unfold daysInMonth
  split
  · split <;> omega
  · split <;> omega

theorem parseYmd_renderDate (dt : PyDate) (h : validDate dt = true) :
    parseYmd (renderDate dt).data = some dt := by
  obtain ⟨y, m, d⟩ := dt
  simp only [validDate, Bool.and_eq_true, decide_eq_true_eq] at h
  obtain ⟨⟨⟨⟨⟨h1, h2⟩, h3⟩, h4⟩, h5⟩, h6⟩ := h
  have hd31 : d ≤ 31 := le_trans h6 (daysInMonth_le y m)
  have hvd : validDate ⟨y, m, d⟩ = true := by
    simp only [validDate, Bool.and_eq_true, decide_eq_true_eq]
    exact ⟨⟨⟨⟨⟨h1, h2⟩, h3⟩, h4⟩, h5⟩, h6⟩
  have hy : digitsVal [digitChar (y / 1000), digitChar (y / 100), digitChar (y / 10),
      digitChar y] = y := digitsVal_pad4 y (by omega)
  have hm2 : digitsVal [digitChar (m / 10), digitChar m] = m := digitsVal_pad2 m (by omega)
  have hd2 : digitsVal [digitChar (d / 10), digitChar d] = d := digitsVal_pad2 d (by omega)
  have e1 : readYear4 [digitChar (y / 1000), digitChar (y / 100), digitChar (y / 10),
      digitChar y, '-', digitChar (m / 10), digitChar m, '-', digitChar (d / 10),
      digitChar d] = some (y, ['-', digitChar (m / 10), digitChar m, '-',
        digitChar (d / 10), digitChar d]) := by
    simp [readYear4, digitChar_isDigit, hy]
  have e2 : readNum2 1 12 [digitChar (m / 10), digitChar m, '-', digitChar (d / 10),
      digitChar d] = some (m, ['-', digitChar (d / 10), digitChar d]) := by
    simp [readNum2, List.takeWhile, digitChar_isDigit, dashNotDigit, hm2, h3, h4]
  have e3 : readNum2 1 31 [digitChar (d / 10), digitChar d] = some (d, []) := by
    simp [readNum2, List.takeWhile, digitChar_isDigit, hd2, h5, hd31]
  rw [renderDate_mk]
  show parseYmd [digitChar (y / 1000), digitChar (y / 100), digitChar (y / 10),
    digitChar y, '-', digitChar (m / 10), digitChar m, '-', digitChar (d / 10),
    digitChar d] = some ⟨y, m, d⟩
  simp [parseYmd, e1, e2, e3, readSep, checkDate, hvd]

theorem strptime_renderDate (dt : PyDate) (h : validDate dt = true) :
    strptimeFormats (renderDate dt) = some dt := by
  simp [strptimeFormats, parseYmd_renderDate dt h]

theorem checkDate_valid (x dt : PyDate) (h : checkDate x = some dt) :
    validDate dt = true := by
  unfold checkDate at h
  split at h
  · cases h
    assumption
  · cases h

theorem parseYmd_valid (cs : List Char) (dt : PyDate) (h : parseYmd cs = some dt) :
    validDate dt = true := by
  simp only [parseYmd, Option.bind_eq_some] at h
  obtain ⟨p1, -, p2, -, p3, -, p4, -, p5, -, h⟩ := h
  split at h
  · exact checkDate_valid _ _ h
  · cases h

theorem parseDmy_valid (sep : Char) (cs : List Char) (dt : PyDate)
    (h : parseDmy sep cs = some dt) : validDate dt = true := by
  simp only [parseDmy, Option.bind_eq_some] at h
  obtain ⟨p1, -, p2, -, p3, -, p4, -, p5, -, h⟩ := h
  split at h
  · exact checkDate_valid _ _ h
  · cases h

theorem parseMdy_valid (cs : List Char) (dt : PyDate) (h : parseMdy cs = some dt) :
    validDate dt = true := by
  simp only [parseMdy, Option.bind_eq_some] at h
  obtain ⟨p1, -, p2, -, p3, -, p4, -, p5, -, h⟩ := h
  split at h
  · exact checkDate_valid _ _ h
  · cases h

theorem parseMonthNameDate_valid (tbl : List (String × ℕ)) (cs : List Char) (dt : PyDate)
    (h : parseMonthNameDate tbl cs = some dt) : validDate dt = true := by
  simp only [parseMonthNameDate, Option.bind_eq_some] at h
  obtain ⟨p1, -, p2, -, p3, -, p4, -, p5, -, p6, -, h⟩ := h
  split at h
  · exact checkDate_valid _ _ h
  · cases h

theorem strptimeFormats_valid (t : String) (dt : PyDate)
    (h : strptimeFormats t = some dt) : validDate dt = true := by
  simp only [strptimeFormats, Option.orElse_eq_some] at h
  rcases h with h | ⟨-, h | ⟨-, h | ⟨-, h | ⟨-, h | ⟨-, h⟩⟩⟩⟩⟩
  · exact parseYmd_valid _ _ h
  · exact parseDmy_valid _ _ _ h
  · exact parseDmy_valid _ _ _ h
  · exact parseMdy_valid _ _ h
  · exact parseMonthNameDate_valid _ _ _ h
  · exact parseMonthNameDate_valid _ _ _ h

/-- Every successful `_normalize_date` result is the ISO rendering of a
valid calendar date. -/
theorem normalize_date_shape (v : JVal) (s : String) (h : normalize_date v = some s) :
    ∃ dt, validDate dt = true ∧ s = renderDate dt := by
  unfold normalize_date at h
  split at h
  · cases h
  · rw [Option.map_eq_some'] at h
    obtain ⟨dt, hdt, rfl⟩ := h
    exact ⟨dt, strptimeFormats_valid _ _ hdt, rfl⟩

/-- ISO strings of valid dates round-trip through `_normalize_date`. -/
theorem normalize_date_renderDate (dt : PyDate) (h : validDate dt = true) :
    normalize_date (.str (renderDate dt)) = some (renderDate dt) := by
  have hne : (renderDate dt == "") = false := by
    simp [renderDate_ne_empty dt]
  unfold normalize_date
  rw [if_neg (by simp [pyFalsy, renderDate_ne_empty dt])]
  show (strptimeFormats (pyStrip (renderDate dt))).map renderDate = _
  rw [pyStrip_renderDate, strptime_renderDate dt h]
  rfl

theorem firstNormalized_shape (l : List String) (s : String)
    (h : firstNormalized l = some s) : ∃ dt, validDate dt = true ∧ s = renderDate dt := by
  induction l with
  | nil => cases h
  | cons c rest ih =>
      unfold firstNormalized at h
      split at h
      · cases h
        exact normalize_date_shape (.str c) s (by assumption)
      · exact ih h

theorem extract_date_from_ocr_shape (text : String) (s : String)
    (h : extract_date_from_ocr text = some s) :
    ∃ dt, validDate dt = true ∧ s = renderDate dt :=
  firstNormalized_shape _ _ h

/-! ## `_pick` / `_pick_item` walk lemmas -/

/-- `_pick` returns its default or a value that passed the
`in (None, "")` filter. -/
theorem pickFrom_default_or (aliases : List String) (data : List (String × JVal))
    (dflt : JVal) :
    pickFrom aliases data dflt = dflt ∨
      isNoneOrEmptyStr (pickFrom aliases data dflt) = false := by
  induction aliases with
  | nil => exact Or.inl rfl
  | cons a rest ih =>
      simp only [pickFrom]
      split
      · split
        · exact ih
        · rename_i hv
          exact Or.inr (by simpa using hv)
      · split
        · rename_i v hget
          split
          · exact ih
          · rename_i hv
            exact Or.inr (by simpa using hv)
        · exact ih

theorem pickItemFrom_default_or (aliases : List String) (data : List (String × JVal))
    (dflt : JVal) :
    pickItemFrom aliases data dflt = dflt ∨
      isNoneOrEmptyStr (pickItemFrom aliases data dflt) = false := by
  induction aliases with
  | nil => exact Or.inl rfl
  | cons a rest ih =>
      simp only [pickItemFrom]
      split
      · rename_i v hget
        split
        · exact ih
        · rename_i hv
          exact Or.inr (by simpa using hv)
      · exact ih

theorem pickFrom_hit (a : String) (rest : List String) (data : List (String × JVal))
    (dflt v : JVal) (hdot : a.data.contains '.' = false)
    (hget : getKey data a = some v) (hv : isNoneOrEmptyStr v = false) :
    pickFrom (a :: rest) data dflt = v := by
  simp only [pickFrom, hdot, hget, hv]
  rfl

theorem pickFrom_skip (a : String) (rest : List String) (data : List (String × JVal))
    (dflt v : JVal) (hdot : a.data.contains '.' = false)
    (hget : getKey data a = some v) (hv : isNoneOrEmptyStr v = true) :
    pickFrom (a :: rest) data dflt = pickFrom rest data dflt := by
  simp only [pickFrom, hdot, hget, hv]
  rfl

theorem pickFrom_none (a : String) (rest : List String) (data : List (String × JVal))
    (dflt : JVal) (hdot : a.data.contains '.' = false)
    (hget : getKey data a = none) :
    pickFrom (a :: rest) data dflt = pickFrom rest data dflt := by
  simp only [pickFrom, hdot, hget]
  rfl

theorem pickItemFrom_hit (a : String) (rest : List String) (data : List (String × JVal))
    (dflt v : JVal) (hget : getKey data a = some v)
    (hv : isNoneOrEmptyStr v = false) :
    pickItemFrom (a :: rest) data dflt = v := by
  simp only [pickItemFrom, hget, hv]
  rfl

theorem pickItemFrom_skip (a : String) (rest : List String) (data : List (String × JVal))
    (dflt v : JVal) (hget : getKey data a = some v)
    (hv : isNoneOrEmptyStr v = true) :
    pickItemFrom (a :: rest) data dflt = pickItemFrom rest data dflt := by
  simp only [pickItemFrom, hget, hv]
  rfl

/-! ## The canonical output shape of `coerce_payload` -/

/-- The fourteen-key dictionary `coerce_payload` returns, parametrised by
its field values (keys in source order). -/
def canonOut (dtype vend : String) (vti inum : JVal) (idate : String) (ddate : JVal)
    (cur : String) (sub tax tot : ℚ) (pm : String) (items : List NItem) (conf : ℚ) :
    List (String × JVal) :=
  [("document_type", .str dtype),
   ("vendor_name", .str vend),
   ("vendor_tax_id", vti),
   ("invoice_number", inum),
   ("invoice_date", .str idate),
   ("due_date", ddate),
   ("currency", .str cur),
   ("subtotal", .num sub),
   ("tax_amount", .num tax),
   ("total_amount", .num tot),
   ("payment_method", .str pm),
   ("line_items", .arr (items.map NItem.toJVal)),
   ("model_confidence", .num conf),
   ("validation_score", .num conf)]

/-- The invariants every line-item dictionary built by the engine
satisfies. -/
def NGood (it : NItem) : Prop :=
  mkRat 1 10000 ≤ it.quantity ∧ 0 ≤ it.unit_price ∧ 0 ≤ it.line_total ∧
    pyStrip it.description = it.description ∧
    (it.category = .null ∨ isNoneOrEmptyStr it.category = false)

theorem coerceItem_good (rules : Rules) (item : List (String × JVal)) :
    NGood (coerceItem rules item) := by
  refine ⟨le_max_right _ _, le_max_right _ _, le_max_right _ _, pyStrip_idem _, ?_⟩
  show pickItem rules item "category" .null = .null ∨ _
  rcases pickItemFrom_default_or (lookupAliases rules.line_item_aliases "category")
    item .null with h | h
  · exact Or.inl h
  · exact Or.inr h

theorem engineRecoverLine_good (rules : Rules) (line : String) (it : NItem)
    (h : engineRecoverLine rules line = some it) :
    NGood it ∧ should_ignore_line_item rules it.description = false := by
  simp only [engineRecoverLine] at h
  split at h
  · cases h
  · split at h
    · cases h
    · split at h
      · cases h
      · split at h
        · cases h
        · rename_i hig
          cases h
          refine ⟨⟨le_max_right _ _, le_max_right _ _, le_max_right _ _,
            pyStrip_idem _, Or.inl rfl⟩, ?_⟩
          simpa using hig

theorem coerceItems_good (rules : Rules) (xs : List JVal) :
    ∀ it ∈ coerceItems rules xs, NGood it := by
  induction xs with
  | nil => intro it hit; cases hit
  | cons x rest ih =>
      intro it hit
      rcases x with _ | b | n | q | s | xs2 | kvs
      · exact ih it hit
      · exact ih it hit
      · exact ih it hit
      · exact ih it hit
      · exact ih it hit
      · exact ih it hit
      · rcases List.mem_cons.mp hit with rfl | hmem
        · exact coerceItem_good rules kvs
        · exact ih it hmem

theorem recover_good (rules : Rules) (text : String) :
    ∀ it ∈ recover_line_items_from_ocr rules text,
      NGood it ∧ should_ignore_line_item rules it.description = false := by
  intro it hit
  obtain ⟨line, -, heq⟩ := List.mem_filterMap.mp hit
  exact engineRecoverLine_good rules line it heq

theorem normalize_line_items_good (rules : Rules) (raw : JVal) (ocr : String) :
    ∀ it ∈ normalize_line_items rules raw ocr, NGood it := by
  intro it hit
  simp only [normalize_line_items] at hit
  have hbase : ∀ x ∈ (match raw with
      | JVal.arr xs => coerceItems rules xs
      | _ => []), NGood x := by
    intro x hx
    cases raw <;> first
      | cases hx
      | exact coerceItems_good rules _ x hx
  split at hit
  · exact hbase it hit
  · split at hit
    · exact hbase it hit
    · exact (recover_good rules ocr it hit).1

theorem pySplitlines_empty : pySplitlines "" = [] := rfl

theorem recover_empty (rules : Rules) : recover_line_items_from_ocr rules "" = [] := rfl

/-- Re-coercing a dictionary the engine itself built for a good line item
gives the same item back. -/
theorem coerceItem_fix (it : NItem) (hg : NGood it)
    (hig : should_ignore_line_item repoRules it.description = false) :
    coerceItem repoRules [("description", .str it.description),
      ("quantity", .num it.quantity), ("unit_price", .num it.unit_price),
      ("line_total", .num it.line_total), ("category", it.category)] = it := by
  obtain ⟨desc, q, u, lt, cat⟩ := it
  obtain ⟨hq, hu, hl, hd, hc⟩ := hg
  have hne : desc ≠ "" := should_ignore_false_ne repoRules desc hig
  have hvne : isNoneOrEmptyStr (.str desc) = false := by simp [isNoneOrEmptyStr, hne]
  have e1 : ∀ dflt, pickItem repoRules [("description", JVal.str desc),
      ("quantity", JVal.num q), ("unit_price", JVal.num u), ("line_total", JVal.num lt),
      ("category", cat)] "description" dflt = .str desc := fun dflt => by
    show pickItemFrom ["description", "name"] _ dflt = _
    exact pickItemFrom_hit _ _ _ _ _ rfl hvne
  have e2 : ∀ dflt, pickItem repoRules [("description", JVal.str desc),
      ("quantity", JVal.num q), ("unit_price", JVal.num u), ("line_total", JVal.num lt),
      ("category", cat)] "quantity" dflt = .num q := fun dflt => by
    show pickItemFrom ["quantity", "qty"] _ dflt = _
    exact pickItemFrom_hit _ _ _ _ _ rfl rfl
  have e3 : ∀ dflt, pickItem repoRules [("description", JVal.str desc),
      ("quantity", JVal.num q), ("unit_price", JVal.num u), ("line_total", JVal.num lt),
      ("category", cat)] "unit_price" dflt = .num u := fun dflt => by
    show pickItemFrom ["unit_price", "price"] _ dflt = _
    exact pickItemFrom_hit _ _ _ _ _ rfl rfl
  have e4 : ∀ dflt, pickItem repoRules [("description", JVal.str desc),
      ("quantity", JVal.num q), ("unit_price", JVal.num u), ("line_total", JVal.num lt),
      ("category", cat)] "line_total" dflt = .num lt := fun dflt => by
    show pickItemFrom ["line_total", "amount", "total"] _ dflt = _
    exact pickItemFrom_hit _ _ _ _ _ rfl rfl
  have e5 : pickItem repoRules [("description", JVal.str desc),
      ("quantity", JVal.num q), ("unit_price", JVal.num u), ("line_total", JVal.num lt),
      ("category", cat)] "category" .null = cat := by
    rcases hc with hnull | hno
    · simp only at hnull
      subst hnull
      show pickItemFrom ["category"] [("description", JVal.str desc),
        ("quantity", JVal.num q), ("unit_price", JVal.num u), ("line_total", JVal.num lt),
        ("category", JVal.null)] .null = JVal.null
      rw [pickItemFrom_skip "category" [] [("description", JVal.str desc),
        ("quantity", JVal.num q), ("unit_price", JVal.num u), ("line_total", JVal.num lt),
        ("category", JVal.null)] JVal.null JVal.null rfl rfl]
      rfl
    · show pickItemFrom ["category"] _ .null = _
      exact pickItemFrom_hit _ _ _ _ _ rfl hno
  simp only [coerceItem, e1, e2, e3, e4, e5, pyStr, safeFloat]
  simp only [NItem.mk.injEq]
  exact ⟨hd, max_eq_left hq, max_eq_left hu, max_eq_left hl, trivial⟩

theorem coerceItems_map (items : List NItem)
    (h : ∀ it ∈ items, NGood it ∧
      should_ignore_line_item repoRules it.description = false) :
    coerceItems repoRules (items.map NItem.toJVal) = items := by
  induction items with
  | nil => rfl
  | cons it rest ih =>
      simp only [List.map_cons, NItem.toJVal, coerceItems]
      rw [coerceItem_fix it (h it (List.mem_cons_self it rest)).1
        (h it (List.mem_cons_self it rest)).2,
        ih (fun x hx => h x (List.mem_cons_of_mem _ hx))]

theorem normalize_line_items_fix (items : List NItem)
    (h : ∀ it ∈ items, NGood it ∧
      should_ignore_line_item repoRules it.description = false) :
    normalize_line_items repoRules (.arr (items.map NItem.toJVal)) "" = items := by
  simp only [normalize_line_items, coerceItems_map items h]
  split
  · rfl
  · simp [recover_empty]

theorem filter_ignore_fix (items : List NItem)
    (h : ∀ it ∈ items, should_ignore_line_item repoRules it.description = false) :
    items.filter (fun it => !(should_ignore_line_item repoRules it.description)) =
      items :=
  List.filter_eq_self.mpr (fun it hit => by simp [h it hit])

/-! ## Payment method and vendor name lemmas -/

theorem payment_method_cases (v : JVal) :
    normalize_payment_method repoRules v = "card" ∨
      normalize_payment_method repoRules v = "cash" ∨
      normalize_payment_method repoRules v = "bank" ∨
      normalize_payment_method repoRules v = "unknown" := by
  have h : ∀ text : String, firstMatchingMethod [("card", ["card", "mastercard"]),
      ("cash", ["cash", "cod"]), ("bank", ["bank", "transfer"])] text = "card" ∨
      firstMatchingMethod [("card", ["card", "mastercard"]), ("cash", ["cash", "cod"]),
        ("bank", ["bank", "transfer"])] text = "cash" ∨
      firstMatchingMethod [("card", ["card", "mastercard"]), ("cash", ["cash", "cod"]),
        ("bank", ["bank", "transfer"])] text = "bank" ∨
      firstMatchingMethod [("card", ["card", "mastercard"]), ("cash", ["cash", "cod"]),
        ("bank", ["bank", "transfer"])] text = "unknown" := by
    intro text
    simp only [firstMatchingMethod]
    split
    · exact Or.inl rfl
    · split
      · exact Or.inr (Or.inl rfl)
      · split
        · exact Or.inr (Or.inr (Or.inl rfl))
        · exact Or.inr (Or.inr (Or.inr rfl))
  simp only [normalize_payment_method]
  exact h _

theorem payment_method_fix (pm : String)
    (h : pm = "card" ∨ pm = "cash" ∨ pm = "bank" ∨ pm = "unknown") :
    normalize_payment_method repoRules (.str pm) = pm := by
  rcases h with rfl | rfl | rfl | rfl <;> rfl

theorem normalize_vendor_name_good (rules : Rules) (raw : List (String × JVal)) :
    normalize_vendor_name rules raw ≠ "" ∧
      pyStrip (normalize_vendor_name rules raw) = normalize_vendor_name rules raw := by
  have uv1 : ("Unknown Vendor" : String) ≠ "" := by decide
  have uv2 : pyStrip "Unknown Vendor" = "Unknown Vendor" := rfl
  simp only [normalize_vendor_name]
  split
  · split
    · split
      · rename_i hne
        exact ⟨hne, pyStrip_idem _⟩
      · exact ⟨uv1, uv2⟩
    · exact ⟨uv1, uv2⟩
  · split
    · exact ⟨uv1, uv2⟩
    · rename_i hne
      exact ⟨hne, pyStrip_idem _⟩

/-- The field-level facts that hold of every `coerce_payload` output. -/
def CanonFacts (dtype vend : String) (vti inum : JVal) (idate : String) (ddate : JVal)
    (cur : String) (sub tax tot : ℚ) (pm : String) (items : List NItem) (conf : ℚ) :
    Prop :=
  (dtype = "invoice" ∨ dtype = "receipt") ∧
  (vend ≠ "" ∧ pyStrip vend = vend) ∧
  (vti = .null ∨ isNoneOrEmptyStr vti = false) ∧
  (inum = .null ∨ isNoneOrEmptyStr inum = false) ∧
  (∃ dt, validDate dt = true ∧ idate = renderDate dt) ∧
  (ddate = .null ∨ ∃ dt, validDate dt = true ∧ ddate = .str (renderDate dt)) ∧
  (cur.length = 3 ∧ pyUpper cur = cur) ∧
  (0 ≤ sub ∧ 0 ≤ tax ∧ 0 ≤ tot) ∧
  (pm = "card" ∨ pm = "cash" ∨ pm = "bank" ∨ pm = "unknown") ∧
  (∀ it ∈ items, NGood it ∧ should_ignore_line_item repoRules it.description = false) ∧
  (reconcile_line_items repoRules items (if 0 < sub then sub else tot) = items) ∧
  (0 ≤ conf ∧ conf ≤ 1)

/-- `coerce_payload` always returns the canonical fourteen-key dictionary,
and its field values satisfy `CanonFacts`. -/
theorem coerce_shape (today : PyDate) (raw : List (String × JVal))
    (htoday : validDate today = true) :
    ∃ dtype vend vti inum idate ddate cur sub tax tot pm items conf,
      coerce_payload repoRules today raw =
        canonOut dtype vend vti inum idate ddate cur sub tax tot pm items conf ∧
      CanonFacts dtype vend vti inum idate ddate cur sub tax tot pm items conf := by
  refine ⟨_, _, _, _, _, _, _, _, _, _, _, _, _, rfl, ?_, ?_, ?_, ?_, ?_, ?_, ?_, ?_,
    ?_, ?_, ?_, ?_⟩
  · -- document_type
    split
    · rename_i h
      exact h
    · exact Or.inl rfl
  · -- vendor_name
    exact normalize_vendor_name_good repoRules raw
  · -- vendor_tax_id
    exact pickFrom_default_or _ _ _
  · -- invoice_number
    exact pickFrom_default_or _ _ _
  · -- invoice_date
    split
    · rename_i d hd2
      split at hd2
      · rename_i hnd
        cases hd2
        exact normalize_date_shape _ _ hnd
      · split at hd2
        · exact extract_date_from_ocr_shape _ _ hd2
        · cases hd2
    · exact ⟨today, htoday, rfl⟩
  · -- due_date
    cases hdd : normalize_date (pick repoRules raw "due_date" .null) with
    | some s =>
        obtain ⟨dt, h1, h2⟩ := normalize_date_shape _ s hdd
        refine Or.inr ⟨dt, h1, ?_⟩
        rw [h2]
        rfl
    | none =>
        exact Or.inl rfl
  · -- currency
    split
    · rename_i h
      exact ⟨h, pyUpper_idem _⟩
    · exact ⟨by decide, by decide⟩
  · -- amounts
    exact ⟨le_max_right _ _, le_max_right _ _, le_max_right _ _⟩
  · -- payment_method
    exact payment_method_cases _
  · -- line items
    intro it hit
    have hit1 := (reconcile_sublist repoRules _ _).subset hit
    rw [List.mem_filter] at hit1
    obtain ⟨hit0, hcond⟩ := hit1
    refine ⟨normalize_line_items_good repoRules _ _ it hit0, ?_⟩
    simpa using hcond
  · -- reconciliation fixpoint on the published totals
    generalize safeFloat (pick repoRules raw "subtotal_amount"
      (.num (safeFloat (pick repoRules raw "total_amount" (.num 0)) 0)))
      (safeFloat (pick repoRules raw "total_amount" (.num 0)) 0) = s0
    generalize safeFloat (pick repoRules raw "total_amount" (.num 0)) 0 = t0
    generalize (normalize_line_items repoRules (pick repoRules raw "line_items" (.arr []))
      (if pyFalsy ((getKey raw "_ocr_text").getD (.str "")) then ""
        else pyStr ((getKey raw "_ocr_text").getD (.str "")))).filter
      (fun it => !(should_ignore_line_item repoRules it.description)) = li
    by_cases h1 : 0 < s0
    · rw [max_eq_left h1.le, if_pos h1, if_pos h1]
      exact reconcile_fixpoint repoRules li s0
    · rw [max_eq_right (le_of_not_lt h1), if_neg h1, if_neg (lt_irrefl 0)]
      by_cases h2 : 0 < t0
      · rw [max_eq_left h2.le]
        exact reconcile_fixpoint repoRules li t0
      · rw [max_eq_right (le_of_not_lt h2)]
        have e1 : reconcile_line_items repoRules li t0 = li := by
          unfold reconcile_line_items
          rw [if_pos (Or.inl (le_of_not_lt h2))]
        have e2 : reconcile_line_items repoRules li 0 = li := by
          unfold reconcile_line_items
          rw [if_pos (Or.inl le_rfl)]
        rw [e1, e2]
  · -- confidence bounds
    exact ⟨le_max_left _ _, max_le zero_le_one (min_le_right _ _)⟩

/-- Feeding a canonical output whose fields satisfy `CanonFacts` back
through `coerce_payload` reproduces it exactly. -/
theorem canon_fixpoint (t2 : PyDate) (dtype vend : String) (vti inum : JVal)
    (idate : String) (ddate : JVal) (cur : String) (sub tax tot : ℚ) (pm : String)
    (items : List NItem) (conf : ℚ)
    (hf : CanonFacts dtype vend vti inum idate ddate cur sub tax tot pm items conf) :
    coerce_payload repoRules t2
        (canonOut dtype vend vti inum idate ddate cur sub tax tot pm items conf) =
      canonOut dtype vend vti inum idate ddate cur sub tax tot pm items conf := by
  obtain ⟨hdt, ⟨hvne, hvstrip⟩, hvti, hinum, ⟨dti, hdti, hidate⟩, hdd, ⟨hcur3, hcurU⟩,
    ⟨hsub, htax, htot⟩, hpm, hitems, hrec, hc0, hc1⟩ := hf
  have eocr : (if pyFalsy ((getKey (canonOut dtype vend vti inum idate ddate cur sub tax
      tot pm items conf) "_ocr_text").getD (.str "")) then ""
      else pyStr ((getKey (canonOut dtype vend vti inum idate ddate cur sub tax tot pm
        items conf) "_ocr_text").getD (.str ""))) = "" := rfl
  have etot : ∀ dflt, safeFloat (pick repoRules (canonOut dtype vend vti inum idate ddate
      cur sub tax tot pm items conf) "total_amount" dflt) 0 = tot := fun _ => rfl
  have esub : ∀ dflt d2, safeFloat (pick repoRules (canonOut dtype vend vti inum idate
      ddate cur sub tax tot pm items conf) "subtotal_amount" dflt) d2 = sub :=
    fun _ _ => rfl
  have etax : ∀ dflt, safeFloat (pick repoRules (canonOut dtype vend vti inum idate ddate
      cur sub tax tot pm items conf) "tax_amount" dflt) 0 = tax := fun _ => rfl
  have econf0 : ∀ dflt d2, safeFloat (pick repoRules (canonOut dtype vend vti inum idate
      ddate cur sub tax tot pm items conf) "model_confidence" dflt) d2 = conf :=
    fun _ _ => rfl
  have econf : max 0 (min conf 1) = conf := by
    rw [min_eq_left hc1, max_eq_right hc0]
  have eidne : idate ≠ "" := by
    rw [hidate]
    exact renderDate_ne_empty dti
  have epickid : pick repoRules (canonOut dtype vend vti inum idate ddate cur sub tax tot
      pm items conf) "invoice_date" .null = .str idate :=
    pickFrom_hit _ _ _ _ _ rfl rfl (by simp [isNoneOrEmptyStr, eidne])
  have eid : normalize_date (pick repoRules (canonOut dtype vend vti inum idate ddate cur
      sub tax tot pm items conf) "invoice_date" .null) = some idate := by
    rw [epickid, hidate]
    exact normalize_date_renderDate dti hdti
  have edd : optStr (normalize_date (pick repoRules (canonOut dtype vend vti inum idate
      ddate cur sub tax tot pm items conf) "due_date" .null)) = ddate := by
    rcases hdd with hnull | ⟨dt2, hdt2, hex⟩
    · subst hnull
      have hp : pickFrom ["due_date"] (canonOut dtype vend vti inum idate .null cur sub
          tax tot pm items conf) JVal.null = pickFrom [] (canonOut dtype vend vti inum
          idate .null cur sub tax tot pm items conf) JVal.null :=
        pickFrom_skip "due_date" [] _ JVal.null JVal.null rfl rfl rfl
      have hp2 : pick repoRules (canonOut dtype vend vti inum idate .null cur sub tax tot
          pm items conf) "due_date" .null = .null := hp
      rw [hp2]
      rfl
    · subst hex
      have hp : pick repoRules (canonOut dtype vend vti inum idate (.str (renderDate dt2))
          cur sub tax tot pm items conf) "due_date" .null = .str (renderDate dt2) :=
        pickFrom_hit _ _ _ _ _ rfl rfl
          (by simp [isNoneOrEmptyStr, renderDate_ne_empty dt2])
      rw [hp, normalize_date_renderDate dt2 hdt2]
      rfl
  have epli : ∀ dflt, pick repoRules (canonOut dtype vend vti inum idate ddate cur sub tax
      tot pm items conf) "line_items" dflt = .arr (items.map NItem.toJVal) := fun _ => rfl
  have eli : normalize_line_items repoRules (.arr (items.map NItem.toJVal)) "" = items :=
    normalize_line_items_fix items hitems
  have efil : items.filter (fun it => !(should_ignore_line_item repoRules it.description))
      = items := filter_ignore_fix items (fun it hit => (hitems it hit).2)
  have hdtne : dtype ≠ "" := by
    rcases hdt with rfl | rfl <;> decide
  have epdt : ∀ dflt, pick repoRules (canonOut dtype vend vti inum idate ddate cur sub tax
      tot pm items conf) "document_type" dflt = .str dtype := fun dflt =>
    pickFrom_hit _ _ _ _ _ rfl rfl (by simp [isNoneOrEmptyStr, hdtne])
  have elow : pyLower dtype = dtype := by
    rcases hdt with rfl | rfl <;> rfl
  have hcurne : cur ≠ "" := by
    intro h
    rw [h] at hcur3
    cases hcur3
  have epcur : ∀ dflt, pick repoRules (canonOut dtype vend vti inum idate ddate cur sub
      tax tot pm items conf) "currency" dflt = .str cur := fun dflt =>
    pickFrom_hit _ _ _ _ _ rfl rfl (by simp [isNoneOrEmptyStr, hcurne])
  have evend : normalize_vendor_name repoRules (canonOut dtype vend vti inum idate ddate
      cur sub tax tot pm items conf) = vend := by
    have hpickv : pick repoRules (canonOut dtype vend vti inum idate ddate cur sub tax tot
        pm items conf) "vendor_name" (.str "Unknown Vendor") = .str vend :=
      pickFrom_hit _ _ _ _ _ rfl rfl (by simp [isNoneOrEmptyStr, hvne])
    simp only [normalize_vendor_name, hpickv]
    rw [show pyStr (JVal.str vend) = vend from rfl, hvstrip]
    rw [if_neg hvne]
  have evti : pick repoRules (canonOut dtype vend vti inum idate ddate cur sub tax tot pm
      items conf) "vendor_tax_id" .null = vti := by
    rcases hvti with hnull | hno
    · subst hnull
      have h1 : pickFrom ["vendor_tax_id", "tax_id"] (canonOut dtype vend .null inum idate
          ddate cur sub tax tot pm items conf) JVal.null = pickFrom ["tax_id"] (canonOut
          dtype vend .null inum idate ddate cur sub tax tot pm items conf) JVal.null :=
        pickFrom_skip "vendor_tax_id" ["tax_id"] _ JVal.null JVal.null rfl rfl rfl
      have h2 : pickFrom ["tax_id"] (canonOut dtype vend .null inum idate ddate cur sub
          tax tot pm items conf) JVal.null = pickFrom [] (canonOut dtype vend .null inum
          idate ddate cur sub tax tot pm items conf) JVal.null :=
        pickFrom_none "tax_id" [] _ JVal.null rfl rfl
      exact h1.trans h2
    · exact pickFrom_hit _ _ _ _ _ rfl rfl hno
  have einum : pick repoRules (canonOut dtype vend vti inum idate ddate cur sub tax tot pm
      items conf) "invoice_number" .null = inum := by
    rcases hinum with hnull | hno
    · subst hnull
      have h1 : pickFrom ["invoice_number", "receipt_number"] (canonOut dtype vend vti
          .null idate ddate cur sub tax tot pm items conf) JVal.null =
          pickFrom ["receipt_number"] (canonOut dtype vend vti .null idate ddate cur sub
            tax tot pm items conf) JVal.null :=
        pickFrom_skip "invoice_number" ["receipt_number"] _ JVal.null JVal.null rfl rfl rfl
      have h2 : pickFrom ["receipt_number"] (canonOut dtype vend vti .null idate ddate cur
          sub tax tot pm items conf) JVal.null = pickFrom [] (canonOut dtype vend vti
          .null idate ddate cur sub tax tot pm items conf) JVal.null :=
        pickFrom_none "receipt_number" [] _ JVal.null rfl rfl
      exact h1.trans h2
    · exact pickFrom_hit _ _ _ _ _ rfl rfl hno
  have hpmne : pm ≠ "" := by
    rcases hpm with rfl | rfl | rfl | rfl <;> decide
  have epm : ∀ dflt, pick repoRules (canonOut dtype vend vti inum idate ddate cur sub tax
      tot pm items conf) "payment_method" dflt = .str pm := fun dflt =>
    pickFrom_hit _ _ _ _ _ rfl rfl (by simp [isNoneOrEmptyStr, hpmne])
  have epmfix : normalize_payment_method repoRules (.str pm) = pm :=
    payment_method_fix pm hpm
  have esub2 : max sub 0 = sub := max_eq_left hsub
  have etax2 : max tax 0 = tax := max_eq_left htax
  have etot2 : max tot 0 = tot := max_eq_left htot
  have elow2 : pyLower (pyStr (JVal.str dtype)) = dtype := elow
  have ecur2 : pyUpper (pyStr (JVal.str cur)) = cur := hcurU
  simp only [coerce_payload, eocr, etot, esub, etax, econf0, econf, eid, edd, epli, eli,
    efil, epdt, epcur, evend, evti, einum, epm, epmfix, esub2, etax2, etot2, hrec,
    elow2, ecur2]
  rw [if_pos hdt, if_pos hcur3]
  rfl

/-- C9: normalization is idempotent — for every raw payload, feeding
`coerce_payload`'s canonical-shaped output back through `coerce_payload`
(on any later calendar day) returns it unchanged.  `t1` is the valid
calendar date `datetime.now()` produced during the first run. -/
theorem coerce_payload_idempotent (t1 t2 : PyDate) (raw : List (String × JVal))
    (h : validDate t1 = true) :
    coerce_payload repoRules t2 (coerce_payload repoRules t1 raw) =
      coerce_payload repoRules t1 raw := by
  obtain ⟨dtype, vend, vti, inum, idate, ddate, cur, sub, tax, tot, pm, items, conf,
    heq, hf⟩ := coerce_shape t1 raw h
  rw [heq]
  exact canon_fixpoint t2 dtype vend vti inum idate ddate cur sub tax tot pm items
    conf hf

theorem coerce_payload_idempotent_witness :
    validDate ⟨2026, 10, 12⟩ = true ∧
      coerce_payload repoRules ⟨2026, 11, 1⟩
          (coerce_payload repoRules ⟨2026, 10, 12⟩
            [("vendor", .str "  Acme Corp  "), ("amount_paid", .str "$12.00")]) =
        coerce_payload repoRules ⟨2026, 10, 12⟩
          [("vendor", .str "  Acme Corp  "), ("amount_paid", .str "$12.00")] :=
  ⟨by decide, coerce_payload_idempotent ⟨2026, 10, 12⟩ ⟨2026, 11, 1⟩
    [("vendor", .str "  Acme Corp  "), ("amount_paid", .str "$12.00")] (by decide)⟩

/-- C10: for every input mapping whatsoever, `coerce_payload`'s output has
`subtotal`, `tax_amount` and `total_amount` ≥ 0, `model_confidence` and
`validation_score` equal and in `[0, 1]`, a three-character `currency`, a
`document_type` of `"invoice"` or `"receipt"`, a non-empty vendor name, an
ISO-rendered `invoice_date` of a valid calendar date, and line items with
quantity ≥ 0.0001, unit price ≥ 0, line total ≥ 0 and non-empty
descriptions — before any schema validation runs. -/
theorem coerce_payload_invariants (today : PyDate) (raw : List (String × JVal))
    (h : validDate today = true) :
    (∃ d, getKey (coerce_payload repoRules today raw) "document_type" =
        some (.str d) ∧ (d = "invoice" ∨ d = "receipt")) ∧
    (∃ v, getKey (coerce_payload repoRules today raw) "vendor_name" =
        some (.str v) ∧ v ≠ "") ∧
    (∃ s, getKey (coerce_payload repoRules today raw) "invoice_date" =
        some (.str s) ∧ ∃ dt, validDate dt = true ∧ s = renderDate dt) ∧
    (∃ c, getKey (coerce_payload repoRules today raw) "currency" =
        some (.str c) ∧ c.length = 3) ∧
    (∃ q, getKey (coerce_payload repoRules today raw) "subtotal" =
        some (.num q) ∧ 0 ≤ q) ∧
    (∃ q, getKey (coerce_payload repoRules today raw) "tax_amount" =
        some (.num q) ∧ 0 ≤ q) ∧
    (∃ q, getKey (coerce_payload repoRules today raw) "total_amount" =
        some (.num q) ∧ 0 ≤ q) ∧
    (∃ q, getKey (coerce_payload repoRules today raw) "model_confidence" =
        some (.num q) ∧
      getKey (coerce_payload repoRules today raw) "validation_score" =
        some (.num q) ∧ 0 ≤ q ∧ q ≤ 1) ∧
    (∃ items : List NItem, getKey (coerce_payload repoRules today raw) "line_items" =
        some (.arr (items.map NItem.toJVal)) ∧
      ∀ it ∈ items, mkRat 1 10000 ≤ it.quantity ∧ 0 ≤ it.unit_price ∧
        0 ≤ it.line_total ∧ it.description ≠ "") := by
  obtain ⟨dtype, vend, vti, inum, idate, ddate, cur, sub, tax, tot, pm, items, conf,
    heq, hdt, ⟨hvne, -⟩, -, -, hid, -, ⟨hcur3, -⟩, ⟨hsub, htax, htot⟩, -, hitems, -,
    hc0, hc1⟩ := coerce_shape today raw h
  rw [heq]
  refine ⟨⟨dtype, rfl, hdt⟩, ⟨vend, rfl, hvne⟩, ⟨idate, rfl, hid⟩, ⟨cur, rfl, hcur3⟩,
    ⟨sub, rfl, hsub⟩, ⟨tax, rfl, htax⟩, ⟨tot, rfl, htot⟩, ⟨conf, rfl, rfl, hc0, hc1⟩,
    ⟨items, rfl, ?_⟩⟩
  intro it hit
  obtain ⟨⟨hq, hu, hl, -, -⟩, hig⟩ := hitems it hit
  exact ⟨hq, hu, hl, should_ignore_false_ne repoRules it.description hig⟩

theorem coerce_payload_invariants_witness :
    validDate ⟨2026, 10, 12⟩ = true ∧
      (∃ d, getKey (coerce_payload repoRules ⟨2026, 10, 12⟩ []) "document_type" =
        some (.str d) ∧ (d = "invoice" ∨ d = "receipt")) :=
  ⟨by decide, (coerce_payload_invariants ⟨2026, 10, 12⟩ [] (by decide)).1⟩

end VIP
